import Mathlib

/-!
# Verification of `tangermeme/attribute.py`

A shallow embedding of the DeepLIFT/SHAP attribution module
(`hypothetical_attributions`, the `DeepLiftShap` engine, and the
`deep_lift_shap` batched driver) together with proofs of the spec's claims.

Tensor values are modelled over `ℚ` (exact arithmetic standing in for the
floating-point arithmetic of the source); tensors are total functions from
their index domains.
-/

namespace Tangermeme

/-- A tensor of shape `(n, a, l)` — batch, alphabet, sequence length —
as a curried function on its index domain. -/
def Tensor3 (n a l : ℕ) : Type := Fin n → Fin a → Fin l → ℚ

/-! ## `hypothetical_attributions` (attribute.py lines 11–74)

The source builds `projected_contribs = torch.zeros_like(references[0])`
and then, for each alphabet index `i`, writes the slice
`projected_contribs[:, i] = ((hyp_input - references) * multipliers).sum(dim=1)`
where `hyp_input` is zero everywhere except `hyp_input[:, i] = 1`.
We mirror the loop as a left fold of slice-writes over `List.finRange a`.
-/

/-- `hypothetical_input` for loop index `i`: `torch.zeros_like(X)` followed by
`hypothetical_input[:, i] = 1.0`. -/
def hypotheticalInput (n a l : ℕ) (i : Fin a) : Tensor3 n a l :=
  fun _ c _ => if c = i then 1 else 0

/-- The slice written at loop index `i`:
`torch.sum((hypothetical_input - references[0]) * multipliers[0], dim=1)`. -/
def hypSlice {n a l : ℕ} (multipliers references : Tensor3 n a l) (i : Fin a) :
    Fin n → Fin l → ℚ :=
  fun b p => ∑ c, (hypotheticalInput n a l i b c p - references b c p) *
    multipliers b c p

/-- In-place write of alphabet slice `i` of a tensor
(`projected_contribs[:, i] = s`). -/
def writeSlice {n a l : ℕ} (t : Tensor3 n a l) (i : Fin a)
    (s : Fin n → Fin l → ℚ) : Tensor3 n a l :=
  fun b c p => if c = i then s b p else t b c p

/-- `hypothetical_attributions(multipliers, X, references)` (lines 64–74).
`X` contributes only its shape/dtype (`torch.zeros_like(X)`), which the
typed embedding carries implicitly; the value of `X` is unused, exactly as
in the source. -/
def hypothetical_attributions {n a l : ℕ}
    (multipliers : Tensor3 n a l) (_X : Tensor3 n a l)
    (references : Tensor3 n a l) : Tensor3 n a l :=
  (List.finRange a).foldl
    (fun acc i => writeSlice acc i (hypSlice multipliers references i))
    (fun _ _ _ => 0)

/-- Writing slices other than `c` leaves slice `c` untouched. -/
lemma foldl_writeSlice_not_mem {n a l : ℕ}
    (multipliers references : Tensor3 n a l) (t : Tensor3 n a l)
    (xs : List (Fin a)) (c : Fin a) (hc : c ∉ xs) (b : Fin n) (p : Fin l) :
    (xs.foldl
      (fun acc i => writeSlice acc i (hypSlice multipliers references i)) t)
      b c p = t b c p := by
  induction xs generalizing t with
  | nil => rfl
  | cons x rest ih =>
    have hcx : c ≠ x := fun h => hc (h ▸ List.mem_cons_self x rest)
    have hcr : c ∉ rest := fun h => hc (List.mem_cons_of_mem x h)
    rw [List.foldl_cons, ih _ hcr]
    simp [writeSlice, hcx]

/-- If `c` occurs exactly once in `xs`, the fold's value on slice `c` is the
slice computed for `c`. -/
lemma foldl_writeSlice_mem {n a l : ℕ}
    (multipliers references : Tensor3 n a l) (t : Tensor3 n a l)
    (xs : List (Fin a)) (c : Fin a) (hc : c ∈ xs) (hnd : xs.Nodup)
    (b : Fin n) (p : Fin l) :
    (xs.foldl
      (fun acc i => writeSlice acc i (hypSlice multipliers references i)) t)
      b c p = hypSlice multipliers references c b p := by
  induction xs generalizing t with
  | nil => cases hc
  | cons x rest ih =>
    rw [List.foldl_cons]
    rcases List.mem_cons.mp hc with hcx | hcr
    · subst hcx
      have hcr : c ∉ rest := (List.nodup_cons.mp hnd).1
      rw [foldl_writeSlice_not_mem multipliers references _ rest c hcr]
      simp [writeSlice]
    · exact ih _ hcr (List.nodup_cons.mp hnd).2

/-! ## `DeepLiftShap._backward_hook` (attribute.py lines 231–243)

The captured `module.input` / `module.output` tensors have a leading batch
axis of size `2B` (the concatenation of the inputs half and the baselines
half); `chunk(2)` splits that axis.  We model such a tensor as a function
`Fin 2 → ι → ℚ`: the first component selects the half, `ι` is the
per-half index domain (example × feature indices). -/

/-- `torch.sub(*t.chunk(2))`: first half minus second half. -/
def chunkSub {ι : Type} (t : Fin 2 → ι → ℚ) : ι → ℚ :=
  fun i => t 0 i - t 1 i

/-- `DeepLiftShap._backward_hook(module, grad_input, grad_output)`:
`delta_in_`/`delta_out_` are the chunk differences of the captured
`module.input`/`module.output`; both are duplicated over the two halves
(`torch.cat([d, d])`); `delta = delta_out / delta_in`; the returned gradient
is `torch.where(abs(delta_in) < eps, grad_input[0], grad_output[0] * delta)`. -/
def backward_hook {ι : Type} (eps : ℚ) (input output : Fin 2 → ι → ℚ)
    (grad_input grad_output : Fin 2 → ι → ℚ) : Fin 2 → ι → ℚ :=
  let delta_in_ := chunkSub input
  let delta_out_ := chunkSub output
  let delta_in : Fin 2 → ι → ℚ := fun _ i => delta_in_ i
  let delta_out : Fin 2 → ι → ℚ := fun _ i => delta_out_ i
  let delta : Fin 2 → ι → ℚ := fun k i => delta_out k i / delta_in k i
  fun k i =>
    if |delta_in k i| < eps then grad_input k i else grad_output k i * delta k i

/-! ## Modules, hook tables and the engine (attribute.py lines 132–267)

A PyTorch module is modelled by the facts the engine inspects or mutates:
whether it is an instance of one of the configured `ignore_layers` types
(default `(torch.nn.ReLU,)`), whether it is a `_MaxPoolNd` instance, its
three hook tables (`OrderedDict`s keyed by handle id, modelled as lists of
ids), and the `module.input` / `module.output` attributes stashed by the
forward hooks.  `V` is the type of captured tensor values. -/

structure Module (V : Type) where
  isIgnoreInstance : Bool
  isMaxPool : Bool
  forwardHooks : List ℕ
  forwardPreHooks : List ℕ
  backwardHooks : List ℕ
  inputAttr : Option V
  outputAttr : Option V
  deriving DecidableEq

/-- `DeepLiftShap._can_register_hook(module)` (lines 245–250):
`False` if `len(module._backward_hooks) > 0`; `False` if
`not isinstance(module, self.ignore_layers)`; else `True`. -/
def can_register_hook {V : Type} (module : Module V) : Bool :=
  if module.backwardHooks.length > 0 then false
  else if !module.isIgnoreInstance then false
  else true

/-- The effect of `DeepLiftShap._register_hooks(module)` (lines 252–267) on
one module, with the default `attribute_to_layer_input=True` (the only way
the engine calls it, via `model.apply`): when `_can_register_hook` holds,
register a forward hook, a forward-pre hook and a full-backward hook, with
three fresh handle ids `base`, `base+1`, `base+2`. -/
def registerModule {V : Type} (base : ℕ) (module : Module V) : Module V :=
  if can_register_hook module then
    { module with
      forwardHooks := module.forwardHooks ++ [base]
      forwardPreHooks := module.forwardPreHooks ++ [base + 1]
      backwardHooks := module.backwardHooks ++ [base + 2] }
  else module

/-- Which hook table a handle points into. -/
inductive HookKind where
  | fwd
  | fwdPre
  | bwd
  deriving DecidableEq

/-- A hook handle, as returned by `register_forward_hook` /
`register_forward_pre_hook` / `register_full_backward_hook`: it knows the
module (by index), the table, and the id to delete. -/
structure Handle where
  mi : ℕ
  kind : HookKind
  id : ℕ
  deriving DecidableEq

/-- `handle.remove()`: delete the id from the module's table. -/
def removeHandle {V : Type} (module : Module V) (k : HookKind) (id : ℕ) :
    Module V :=
  match k with
  | .fwd => { module with forwardHooks := module.forwardHooks.erase id }
  | .fwdPre => { module with forwardPreHooks := module.forwardPreHooks.erase id }
  | .bwd => { module with backwardHooks := module.backwardHooks.erase id }

/-- A model: a family of modules indexed by their position in
`model.named_modules()` / traversal order of `model.apply`, together with
the number of modules.  (`Model V n` values are the functions restricted to
indices `< n`.) -/
def Model (V : Type) : Type := ℕ → Module V

/-- `DeepLiftShap.__init__` (lines 132–147): raise `ValueError` if any
module is an instance of `torch.nn.modules.pooling._MaxPoolNd`, otherwise
store the model and parameters with empty handle lists.  The constructor
never evaluates the model's forward function. -/
def DeepLiftShap_init {V : Type} (model : Model V) (numModules : ℕ) :
    Except String (Model V × ℕ) :=
  if (List.range numModules).any (fun mi => (model mi).isMaxPool) then
    Except.error ("Cannot use this implementation of DeepLiftShap with " ++
      "max pooling layers. Please use the implementation in Captum.")
  else
    Except.ok (model, numModules)

/-! ## Hook lifecycle of `DeepLiftShap.attribute` (attribute.py lines 184–223)

`attribute` runs `self.model.apply(self._register_hooks)` (visiting every
module and appending the returned handles to `self.forward_handles` /
`self.backward_handles`), runs the forward and backward passes inside a
`try:` block, and in the `finally:` block calls `.remove()` on every stored
handle.  The body can exit normally, exit with a convergence warning, or
raise (e.g. in the forward/gradient computation); the `finally` block runs
in every case.

Handle ids in PyTorch are globally fresh; we realise freshness by starting
above every id already present in the model and giving module `mi` the
block `fresh + 3*mi, …, fresh + 3*mi + 2`. -/

/-- All hook ids present in the first `n` modules of a model. -/
def allHookIds {V : Type} (model : Model V) (n : ℕ) : List ℕ :=
  (List.range n).flatMap (fun mi =>
    (model mi).forwardHooks ++ (model mi).forwardPreHooks ++
      (model mi).backwardHooks)

/-- A hook id strictly larger than every id present in the model. -/
def freshBase {V : Type} (model : Model V) (n : ℕ) : ℕ :=
  (allHookIds model n).foldr max 0 + 1

/-- `model.apply(self._register_hooks)`: every module gets hooks registered
according to `_register_hooks`. -/
def registerPhase {V : Type} (model : Model V) (fresh n : ℕ) : Model V :=
  fun mi => if mi < n then registerModule (fresh + 3 * mi) (model mi)
    else model mi

/-- The handles appended to `self.forward_handles` while registering module
`mi` (the forward hook, then the forward-pre hook — lines 265–266). -/
def forwardHandlesFor {V : Type} (model : Model V) (fresh mi : ℕ) :
    List Handle :=
  if can_register_hook (model mi) then
    [⟨mi, .fwd, fresh + 3 * mi⟩, ⟨mi, .fwdPre, fresh + 3 * mi + 1⟩]
  else []

/-- The handles appended to `self.backward_handles` while registering module
`mi` (line 267). -/
def backwardHandlesFor {V : Type} (model : Model V) (fresh mi : ℕ) :
    List Handle :=
  if can_register_hook (model mi) then [⟨mi, .bwd, fresh + 3 * mi + 2⟩]
  else []

/-- `self.forward_handles` after the register phase. -/
def forwardHandles {V : Type} (model : Model V) (fresh n : ℕ) : List Handle :=
  (List.range n).flatMap (forwardHandlesFor model fresh)

/-- `self.backward_handles` after the register phase. -/
def backwardHandles {V : Type} (model : Model V) (fresh n : ℕ) : List Handle :=
  (List.range n).flatMap (backwardHandlesFor model fresh)

/-- The forward pass: on every module whose hooks were registered,
`_forward_pre_hook` stashes `module.input = inputs[0].clone().detach()` and
`_forward_hook` stashes `module.output = outputs.clone().detach()`
(lines 225–229).  `trace mi` is the pair of tensors flowing through module
`mi` during this forward pass. -/
def capturePhase {V : Type} (model₀ model : Model V) (trace : ℕ → V × V)
    (n : ℕ) : Model V :=
  fun mi =>
    if mi < n ∧ can_register_hook (model₀ mi) then
      { model mi with
        inputAttr := some (trace mi).1
        outputAttr := some (trace mi).2 }
    else model mi

/-- The `finally:` block's loop over a handle list: `handle.remove()` for
each stored handle. -/
def removePhase {V : Type} (model : Model V) (handles : List Handle) :
    Model V :=
  handles.foldl
    (fun md h => fun mi =>
      if h.mi = mi then removeHandle (md mi) h.kind h.id else md mi)
    model

/-- How the `try:` body of `attribute` exits: normally, with a non-fatal
convergence warning, or by an exception raised during the forward or
gradient computation. -/
inductive ExitPath where
  | normal
  | warned
  | raised
  deriving DecidableEq

/-- Observable outcome of one `attribute` call on the hook model: the
returned value (or propagated exception) and the model state after the
call. -/
structure AttributeExit (V G : Type) where
  result : Except String G
  model : Model V

/-- The hook lifecycle of `DeepLiftShap.attribute` (lines 184–223): register
hooks on every module; run the forward pass (hooks capture tensors); the
body then either returns the computed `gradients` (possibly after emitting
the convergence warning) or raises; the `finally:` block removes every
stored forward and backward handle before the call returns or the exception
propagates. -/
def attribute_hookLifecycle {V G : Type} (model : Model V) (n : ℕ)
    (trace : ℕ → V × V) (exit : ExitPath) (gradients : G) :
    AttributeExit V G :=
  let fresh := freshBase model n
  let model₁ := registerPhase model fresh n
  let model₂ := capturePhase model model₁ trace n
  let result : Except String G :=
    match exit with
    | .normal => Except.ok gradients
    | .warned => Except.ok gradients
    | .raised => Except.error "exception raised during forward or backward"
  let model₃ := removePhase model₂ (forwardHandles model fresh n)
  let model₄ := removePhase model₃ (backwardHandles model fresh n)
  { result := result, model := model₄ }

/-! ### Hook-lifecycle lemmas -/

lemma le_foldr_max (l : List ℕ) (a : ℕ) (h : a ∈ l) : a ≤ l.foldr max 0 := by
  induction l with
  | nil => cases h
  | cons x xs ih =>
    rcases List.mem_cons.mp h with rfl | h'
    · exact le_max_left _ _
    · exact le_trans (ih h') (le_max_right _ _)

/-- Every id already present in the model is below `freshBase`. -/
lemma id_lt_freshBase {V : Type} (model : Model V) (n mi : ℕ) (hmi : mi < n)
    (id : ℕ)
    (h : id ∈ (model mi).forwardHooks ++ (model mi).forwardPreHooks ++
      (model mi).backwardHooks) :
    id < freshBase model n := by
  have hmem : id ∈ allHookIds model n := by
    unfold allHookIds
    exact List.mem_flatMap.mpr ⟨mi, List.mem_range.mpr hmi, h⟩
  exact Nat.lt_succ_of_le (le_foldr_max _ _ hmem)

/-- Removing a handle list acts on each module through the handles that
target it. -/
lemma removePhase_apply {V : Type} (model : Model V) (hs : List Handle)
    (mi : ℕ) :
    removePhase model hs mi =
      (hs.filter (fun h => h.mi == mi)).foldl
        (fun m h => removeHandle m h.kind h.id) (model mi) := by
  induction hs generalizing model with
  | nil => rfl
  | cons h rest ih =>
    show removePhase _ rest mi = _
    rw [ih, List.filter_cons]
    by_cases hcase : h.mi = mi
    · simp [hcase]
    · have : (h.mi == mi) = false := beq_false_of_ne hcase
      simp [this, hcase]

/-- Filtering per-module handle lists out of the flattened registration
output. -/
lemma filter_flatMap_range (n mi : ℕ) (f : ℕ → List Handle)
    (hf : ∀ mi' h, h ∈ f mi' → h.mi = mi') :
    ((List.range n).flatMap f).filter (fun h => h.mi == mi) =
      if mi < n then f mi else [] := by
  induction n with
  | zero => simp
  | succ n ih =>
    rw [List.range_succ, List.flatMap_append, List.filter_append, ih]
    have hsingle : (([n] : List ℕ).flatMap f).filter (fun h => h.mi == mi) =
        if mi = n then f n else [] := by
      have : ([n] : List ℕ).flatMap f = f n := by simp
      rw [this]
      by_cases hcase : mi = n
      · rw [if_pos hcase]
        exact List.filter_eq_self.mpr (fun h hh => by
          simp [hf n h hh, hcase])
      · rw [if_neg hcase]
        refine List.filter_eq_nil_iff.mpr (fun h hh => ?_)
        have hn := hf n h hh
        simp only [hn, beq_iff_eq]
        omega
    rw [hsingle]
    by_cases h1 : mi < n
    · rw [if_pos h1, if_neg (Nat.ne_of_lt h1), if_pos (Nat.lt_succ_of_lt h1)]
      simp
    · by_cases h2 : mi = n
      · subst h2
        rw [if_neg (lt_irrefl mi), if_pos rfl, if_pos (Nat.lt_succ_self mi)]
        simp
      · rw [if_neg h1, if_neg h2,
          if_neg (by omega : ¬ mi < n + 1)]
        simp

/-- The final state of module `mi` after one `attribute` call: hooked
modules keep their captured `module.input`/`module.output` attributes but
get their hook tables restored; all other modules are untouched. -/
lemma attribute_final_module {V G : Type} (model : Model V) (n : ℕ)
    (trace : ℕ → V × V) (exit : ExitPath) (gradients : G) (mi : ℕ) :
    (attribute_hookLifecycle model n trace exit gradients).model mi =
      if mi < n ∧ can_register_hook (model mi) = true then
        { model mi with
          inputAttr := some (trace mi).1
          outputAttr := some (trace mi).2 }
      else model mi := by
  have hfwd : ∀ mi' h, h ∈ forwardHandlesFor model (freshBase model n) mi' →
      h.mi = mi' := by
    intro mi' h hh
    unfold forwardHandlesFor at hh
    split at hh
    · simp only [List.mem_cons, List.not_mem_nil, or_false] at hh
      rcases hh with rfl | rfl <;> rfl
    · cases hh
  have hbwd : ∀ mi' h, h ∈ backwardHandlesFor model (freshBase model n) mi' →
      h.mi = mi' := by
    intro mi' h hh
    unfold backwardHandlesFor at hh
    split at hh
    · simp only [List.mem_cons, List.not_mem_nil, or_false] at hh
      rcases hh with rfl
      rfl
    · cases hh
  show removePhase (removePhase _ _) _ mi = _
  rw [removePhase_apply, removePhase_apply]
  unfold forwardHandles backwardHandles
  rw [filter_flatMap_range n mi _ hfwd, filter_flatMap_range n mi _ hbwd]
  by_cases hlt : mi < n
  · rw [if_pos hlt, if_pos hlt]
    unfold forwardHandlesFor backwardHandlesFor
    show _ = _
    by_cases hreg : can_register_hook (model mi) = true
    · rw [if_pos hreg, if_pos hreg, if_pos ⟨hlt, hreg⟩]
      have hcap : capturePhase model (registerPhase model (freshBase model n) n)
          trace n mi =
          { registerModule (freshBase model n + 3 * mi) (model mi) with
            inputAttr := some (trace mi).1
            outputAttr := some (trace mi).2 } := by
        unfold capturePhase registerPhase
        rw [if_pos ⟨hlt, hreg⟩, if_pos hlt]
      rw [hcap]
      unfold registerModule
      rw [if_pos hreg]
      set b := freshBase model n + 3 * mi with hb
      have hfresh : ∀ id ∈ (model mi).forwardHooks ++
          (model mi).forwardPreHooks ++ (model mi).backwardHooks,
          id < freshBase model n := id_lt_freshBase model n mi hlt
      have hb0 : b ∉ (model mi).forwardHooks := fun hmem =>
        absurd (hfresh b (by simp [hmem])) (by omega)
      have hb1 : b + 1 ∉ (model mi).forwardPreHooks := fun hmem =>
        absurd (hfresh (b + 1) (by simp [hmem])) (by omega)
      have hb2 : b + 2 ∉ (model mi).backwardHooks := fun hmem =>
        absurd (hfresh (b + 2) (by simp [hmem])) (by omega)
      simp only [List.foldl_cons, List.foldl_nil, removeHandle]
      simp only [List.erase_append_right _ hb0,
        List.erase_append_right _ hb1, List.erase_append_right _ hb2,
        List.erase_cons_head, List.append_nil]
    · rw [if_neg hreg, if_neg hreg,
        if_neg (fun hc => hreg hc.2)]
      simp only [List.foldl_nil]
      unfold capturePhase registerPhase
      rw [if_neg (fun hc => hreg hc.2), if_pos hlt]
      unfold registerModule
      rw [if_neg hreg]
  · rw [if_neg hlt, if_neg hlt, if_neg (fun hc => hlt hc.1)]
    simp only [List.foldl_nil]
    unfold capturePhase registerPhase
    rw [if_neg (fun hc => hlt hc.1), if_neg hlt]

/-! ## Convergence check of `DeepLiftShap.attribute` (attribute.py lines 190–223)

`attribute` concatenates `inputs` and `baselines`, runs the model once, and
computes

* `outputs_ = torch.chunk(outputs, 2)[0].sum()` — the sum of **all** output
  entries of the inputs half (line 198);
* `gradients = torch.autograd.grad(outputs_, inputs)[0]` (line 199);
* `output_diff = torch.sub(*torch.chunk(outputs[:, 0], 2))` — the difference
  of output **channel 0** only (line 203);
* `input_diff = torch.sum((inputs - baselines) * gradients, dim=(1, 2))`;
* `convergence_deltas = abs(output_diff - input_diff)`, a warning when any
  delta exceeds `self.warning_threshold`, a `print` when `self.verbose`,
  and finally `return gradients` (lines 204–223).

The model's outputs on the two halves are `outTop e = model(inputs e)` and
`outBot e = model(baselines e)`; outputs have `O + 1` channels so that
`outputs[:, 0]` is well formed. -/

/-- `torch.sub(*torch.chunk(outputs[:, 0], 2))` per example. -/
def outputDiffCh0 {B O : ℕ} (outTop outBot : Fin B → Fin (O + 1) → ℚ) :
    Fin B → ℚ :=
  fun e => outTop e 0 - outBot e 0

/-- `torch.sum((inputs - baselines) * gradients, dim=(1, 2))` per example. -/
def inputDiffSum {B A L : ℕ} (inputs baselines gradients : Tensor3 B A L) :
    Fin B → ℚ :=
  fun e => ∑ c, ∑ p, (inputs e c p - baselines e c p) * gradients e c p

/-- `convergence_deltas = abs(output_diff - input_diff)` (line 205). -/
def convergenceDeltas {B A L O : ℕ} (outTop outBot : Fin B → Fin (O + 1) → ℚ)
    (inputs baselines gradients : Tensor3 B A L) : Fin B → ℚ :=
  fun e => |outputDiffCh0 outTop outBot e -
    inputDiffSum inputs baselines gradients e|

/-- Observable outcome of the validation tail of `attribute`: the returned
`gradients`, whether the convergence warning was emitted, and what the
`verbose` branch printed. -/
structure AttributeResult (B A L : ℕ) where
  gradients : Tensor3 B A L
  warned : Bool
  printedDeltas : Option (Fin B → ℚ)

/-- Lines 203–223 of `attribute`: compute the convergence deltas, warn iff
`any(convergence_deltas > self.warning_threshold)`, print the deltas iff
`self.verbose`, and return the gradients in every case (the warning is
non-fatal). -/
def attribute_validation {B A L O : ℕ} (warning_threshold : ℚ)
    (verbose : Bool) (outTop outBot : Fin B → Fin (O + 1) → ℚ)
    (inputs baselines gradients : Tensor3 B A L) : AttributeResult B A L :=
  let deltas := convergenceDeltas outTop outBot inputs baselines gradients
  { gradients := gradients
    warned := (List.finRange B).any fun e =>
      decide (warning_threshold < deltas e)
    printedDeltas := if verbose then some deltas else none }

/-! ## A single linear (dense) layer model

`model(x)[o] = bias[o] + ∑ c p, W[o][c][p] * x[c][p]`, an affine map — the
shape-general form of a `torch.nn.Linear` applied to the flattened
`(alphabet, length)` features.  No module of such a model is a `ReLU`
instance, so `_can_register_hook` is `False` everywhere and the backward
pass is the native gradient of `outputs_` (definitionally characterised by
`linearForward_sum_diff` below). -/

def linearForward {A L O : ℕ} (W : Fin (O + 1) → Fin A → Fin L → ℚ)
    (bias : Fin (O + 1) → ℚ) (x : Fin A → Fin L → ℚ) : Fin (O + 1) → ℚ :=
  fun o => bias o + ∑ c, ∑ p, W o c p * x c p

/-- The gradient of `outputs_ = chunk(outputs, 2)[0].sum()` with respect to
example `e` of `inputs`: `outputs_` sums **all** `O + 1` channels of the
inputs half, so `∂ outputs_ / ∂ inputs[e][c][p] = ∑ o, W[o][c][p]`. -/
def linearGradients (B : ℕ) {A L O : ℕ}
    (W : Fin (O + 1) → Fin A → Fin L → ℚ) : Tensor3 B A L :=
  fun _ c p => ∑ o, W o c p

/-- `DeepLiftShap.attribute` on the single-linear-layer model: no hooks are
registered (a linear layer is not a `ReLU` instance), the forward pass on
the concatenated batch yields `linearForward` on each half, and the
gradient of `outputs_` is `linearGradients`. -/
def attributeLinear {B A L O : ℕ} (warning_threshold : ℚ) (verbose : Bool)
    (W : Fin (O + 1) → Fin A → Fin L → ℚ) (bias : Fin (O + 1) → ℚ)
    (inputs baselines : Tensor3 B A L) : AttributeResult B A L :=
  attribute_validation warning_threshold verbose
    (fun e => linearForward W bias (inputs e))
    (fun e => linearForward W bias (baselines e))
    inputs baselines (linearGradients B W)

/-- `linearGradients` really is the derivative of
`outputs_ = ∑ e, ∑ o, model(inputs e)[o]`: for a single example, perturbing
the input by `d` changes the summed output by
`∑ c p, linearGradients · c p * d c p`, exactly and for every `d`. -/
lemma linearForward_sum_diff {A L O : ℕ}
    (W : Fin (O + 1) → Fin A → Fin L → ℚ) (bias : Fin (O + 1) → ℚ)
    (x d : Fin A → Fin L → ℚ) :
    (∑ o, linearForward W bias (fun c p => x c p + d c p) o) -
      (∑ o, linearForward W bias x o) =
    ∑ c, ∑ p, (∑ o, W o c p) * d c p := by
  unfold linearForward
  have h1 : ∀ o : Fin (O + 1),
      (bias o + ∑ c, ∑ p, W o c p * (x c p + d c p)) =
        (bias o + ∑ c, ∑ p, W o c p * x c p) +
          ∑ c, ∑ p, W o c p * d c p := by
    intro o
    simp only [mul_add, Finset.sum_add_distrib]
    ring
  simp only [h1]
  rw [Finset.sum_add_distrib, add_sub_cancel_left]
  calc ∑ o, ∑ c, ∑ p, W o c p * d c p
      = ∑ c, ∑ o : Fin (O + 1), ∑ p, W o c p * d c p := Finset.sum_comm
    _ = ∑ c, ∑ p, ∑ o, W o c p * d c p :=
        Finset.sum_congr rfl (fun c _ => Finset.sum_comm)
    _ = ∑ c, ∑ p, (∑ o, W o c p) * d c p := by
        refine Finset.sum_congr rfl (fun c _ => ?_)
        refine Finset.sum_congr rfl (fun p _ => ?_)
        rw [Finset.sum_mul]

/-! ## The batched driver `deep_lift_shap` (attribute.py lines 270–437)

The driver walks the flattened (example, reference) cross-product
`i = 0 … n-1` with `n = len(X) * n_shuffles`, buffering pair indices
`Xi.append(i // n_shuffles)`, `rj.append(i % n_shuffles)` and flushing a
batch when `len(Xi) == batch_size or i == n - 1`.  A flush computes the
references, runs `DeepLiftShap(model, …).attribute(_X, _references)`
followed by `hypothetical_attributions`, extends `attr_`, then pops
averaged full groups of `n_shuffles` results in the `while` loop.

The engine-plus-projector composite acts per (example, reference) pair:
the model, its hooks (`chunk(2)` is aligned per example), the gradient of
the summed outputs, and `hypothetical_attributions` all operate
example-wise on the batch, so a batch computation is the map of a per-pair
function over the buffered pairs.  That per-pair function is the `attrPair`
parameter below, and `refFn x s` is
`references(x[None], n=1, random_state=s)[:, 0]` for the function-valued
`references` argument.  Sequences and attribution maps are functions
`ι → ℚ` on an abstract feature domain `ι`. -/

/-- Arguments of one `deep_lift_shap` call with a function-valued
`references` and an integer `random_state`. -/
structure DriverConfig (ι : Type) where
  X : ℕ → (ι → ℚ)
  numX : ℕ
  n_shuffles : ℕ
  batch_size : ℕ
  random_state : ℕ
  hypothetical : Bool
  refFn : (ι → ℚ) → ℕ → (ι → ℚ)
  attrPair : (ι → ℚ) → (ι → ℚ) → (ι → ℚ)

/-- The driver's loop state: the pair-index buffers `Xi`/`rj`, the pending
per-pair attributions `attr_`, the finished per-example `attributions`,
the next example index `z` to aggregate, and the collected
`references_`. -/
@[ext]
structure DriverState (ι : Type) where
  Xi : List ℕ
  rj : List ℕ
  attr_ : List (ι → ℚ)
  attributions : List (ι → ℚ)
  z : ℕ
  references_ : List (ι → ℚ)

/-- `torch.stack(l).mean(dim=0)`. -/
def meanStack {ι : Type} (l : List (ι → ℚ)) : ι → ℚ :=
  fun i => (l.map (fun v => v i)).sum / l.length

/-- `if not hypothetical: attr_avg *= X[z]` (lines 418–419). -/
def finalizeAvg {ι : Type} (cfg : DriverConfig ι) (z : ℕ) (v : ι → ℚ) :
    ι → ℚ :=
  if cfg.hypothetical then v else fun i => v i * cfg.X z i

/-- The `while len(attr_) >= n_shuffles:` aggregation loop (lines 416–423),
with explicit fuel (each iteration drops `n_shuffles ≥ 1` pending results,
so any fuel `≥ attr_.length` is enough). -/
def drainLoop {ι : Type} (cfg : DriverConfig ι) :
    ℕ → DriverState ι → DriverState ι
  | 0, st => st
  | fuel + 1, st =>
    if cfg.n_shuffles ≤ st.attr_.length then
      let attr_avg := finalizeAvg cfg st.z
        (meanStack (st.attr_.take cfg.n_shuffles))
      drainLoop cfg fuel
        { st with
          attributions := st.attributions ++ [attr_avg]
          attr_ := st.attr_.drop cfg.n_shuffles
          z := st.z + 1 }
    else st

/-- One batch flush (lines 386–428, function-references branch with an
integer `random_state`): build the per-pair references with seeds
`random_state + rj[j]`, run the engine and projector on every buffered
pair, extend `attr_`, drain full groups, extend `references_`, and clear
the buffers. -/
def flushBatch {ι : Type} (cfg : DriverConfig ι) (st : DriverState ι) :
    DriverState ι :=
  let pairs := st.Xi.zip st.rj
  let references := pairs.map fun p =>
    cfg.refFn (cfg.X p.1) (cfg.random_state + p.2)
  let attrs := (pairs.zip references).map fun q =>
    cfg.attrPair (cfg.X q.1.1) q.2
  let st1 := { st with attr_ := st.attr_ ++ attrs }
  let st2 := drainLoop cfg (st1.attr_.length + 1) st1
  { st2 with
    references_ := st2.references_ ++ references
    Xi := []
    rj := [] }

/-- One iteration of `for i in trange(n)` (lines 382–428). -/
def driverStep {ι : Type} (cfg : DriverConfig ι) (st : DriverState ι)
    (i : ℕ) : DriverState ι :=
  let st' := { st with
    Xi := st.Xi ++ [i / cfg.n_shuffles]
    rj := st.rj ++ [i % cfg.n_shuffles] }
  if st'.Xi.length = cfg.batch_size ∨
      i = cfg.numX * cfg.n_shuffles - 1 then
    flushBatch cfg st'
  else st'

/-- `deep_lift_shap(model, X, …, references=<function>, random_state=<int>,
return_references=True)`: the final `attributions` list and the collected
`references_` list (flattened; the source reshapes it to
`(len(X), n_shuffles, *X.shape[1:])` at line 433). -/
def deep_lift_shap {ι : Type} (cfg : DriverConfig ι) :
    List (ι → ℚ) × List (ι → ℚ) :=
  let st := (List.range (cfg.numX * cfg.n_shuffles)).foldl
    (driverStep cfg) ⟨[], [], [], [], 0, []⟩
  (st.attributions, st.references_)

/-- The reference generated for flattened pair `i`: example `i / n_shuffles`
paired with reference index `i % n_shuffles`, seeded
`random_state + (i % n_shuffles)`. -/
def pairRef {ι : Type} (cfg : DriverConfig ι) (i : ℕ) : ι → ℚ :=
  cfg.refFn (cfg.X (i / cfg.n_shuffles))
    (cfg.random_state + i % cfg.n_shuffles)

/-- The engine-plus-projector output for flattened pair `i`. -/
def pairAttr {ι : Type} (cfg : DriverConfig ι) (i : ℕ) : ι → ℚ :=
  cfg.attrPair (cfg.X (i / cfg.n_shuffles)) (pairRef cfg i)

/-- The batching-independent specification of example `z`'s final
attribution: the mean of its `n_shuffles` per-reference attributions, the
reference for index `j` seeded `random_state + j`, multiplied by the
example's own one-hot input unless `hypothetical`. -/
def expectedAttr {ι : Type} (cfg : DriverConfig ι) (z : ℕ) : ι → ℚ :=
  finalizeAvg cfg z (meanStack ((List.range cfg.n_shuffles).map fun j =>
    cfg.attrPair (cfg.X z) (cfg.refFn (cfg.X z) (cfg.random_state + j))))

/-- Pair indices still buffered after `k` loop iterations: the last flush
was at the largest multiple of `batch_size` below `k` (or everything if the
loop has ended). -/
def flushedCount {ι : Type} (cfg : DriverConfig ι) (k : ℕ) : ℕ :=
  if k < cfg.numX * cfg.n_shuffles then cfg.batch_size * (k / cfg.batch_size)
  else cfg.numX * cfg.n_shuffles

/-- The loop state after `k` iterations, in closed form. -/
def stateAt {ι : Type} (cfg : DriverConfig ι) (k : ℕ) : DriverState ι :=
  let F := flushedCount cfg k
  let nS := cfg.n_shuffles
  { Xi := (List.range' F (k - F)).map (· / nS)
    rj := (List.range' F (k - F)).map (· % nS)
    attr_ := (List.range' (nS * (F / nS)) (F - nS * (F / nS))).map
      (pairAttr cfg)
    attributions := (List.range' 0 (F / nS)).map (expectedAttr cfg)
    z := F / nS
    references_ := (List.range' 0 F).map (pairRef cfg) }

/-! ### Driver lemmas -/

lemma drainLoop_spec {ι : Type} (cfg : DriverConfig ι)
    (hnS : 1 ≤ cfg.n_shuffles) :
    ∀ fuel M z (st : DriverState ι),
      st.attr_ =
        (List.range' (cfg.n_shuffles * z) M).map (pairAttr cfg) →
      st.z = z → M ≤ fuel →
      drainLoop cfg fuel st =
        { st with
          attr_ := (List.range'
            (cfg.n_shuffles * (z + M / cfg.n_shuffles))
            (M % cfg.n_shuffles)).map (pairAttr cfg)
          attributions := st.attributions ++
            (List.range' z (M / cfg.n_shuffles)).map (expectedAttr cfg)
          z := z + M / cfg.n_shuffles } := by
  intro fuel
  induction fuel with
  | zero =>
    intro M z st hattr hz hM
    have hM0 : M = 0 := Nat.le_zero.mp hM
    subst hM0
    cases st
    simp_all [drainLoop]
  | succ fuel ih =>
    intro M z st hattr hz hM
    have hlen : st.attr_.length = M := by
      rw [hattr, List.length_map, List.length_range']
    by_cases hcond : cfg.n_shuffles ≤ M
    · -- one pop, then the induction hypothesis
      have hsplit : (List.range' (cfg.n_shuffles * z) M).map (pairAttr cfg) =
          (List.range' (cfg.n_shuffles * z) cfg.n_shuffles).map
            (pairAttr cfg) ++
          (List.range' (cfg.n_shuffles * z + cfg.n_shuffles)
            (M - cfg.n_shuffles)).map (pairAttr cfg) := by
        rw [← List.map_append]
        have h := List.range'_append (cfg.n_shuffles * z) cfg.n_shuffles
          (M - cfg.n_shuffles) 1
        simp only [one_mul] at h
        rw [h, Nat.sub_add_cancel hcond]
      have hlen1 : ((List.range' (cfg.n_shuffles * z)
          cfg.n_shuffles).map (pairAttr cfg)).length = cfg.n_shuffles := by
        rw [List.length_map, List.length_range']
      have htake : st.attr_.take cfg.n_shuffles =
          (List.range' (cfg.n_shuffles * z) cfg.n_shuffles).map
            (pairAttr cfg) := by
        rw [hattr, hsplit, List.take_left' hlen1]
      have hdrop : st.attr_.drop cfg.n_shuffles =
          (List.range' (cfg.n_shuffles * z + cfg.n_shuffles)
            (M - cfg.n_shuffles)).map (pairAttr cfg) := by
        rw [hattr, hsplit, List.drop_left' hlen1]
      have hchunk : (List.range' (cfg.n_shuffles * z)
          cfg.n_shuffles).map (pairAttr cfg) =
          (List.range cfg.n_shuffles).map (fun j =>
            cfg.attrPair (cfg.X z) (cfg.refFn (cfg.X z)
              (cfg.random_state + j))) := by
        rw [List.range'_eq_map_range, List.map_map]
        refine List.map_congr_left (fun j hj => ?_)
        have hj' : j < cfg.n_shuffles := List.mem_range.mp hj
        show pairAttr cfg (cfg.n_shuffles * z + j) = _
        unfold pairAttr pairRef
        rw [Nat.mul_add_div hnS, Nat.div_eq_of_lt hj',
          Nat.mul_add_mod, Nat.mod_eq_of_lt hj', Nat.add_zero]
      have havg : finalizeAvg cfg st.z
          (meanStack (st.attr_.take cfg.n_shuffles)) =
          expectedAttr cfg z := by
        rw [htake, hchunk, hz]
        rfl
      rw [drainLoop, if_pos (by rw [hlen]; exact hcond), havg]
      have hstep := ih (M - cfg.n_shuffles) (z + 1)
        { st with
          attributions := st.attributions ++ [expectedAttr cfg z]
          attr_ := st.attr_.drop cfg.n_shuffles
          z := st.z + 1 }
        (by
          show st.attr_.drop cfg.n_shuffles = _
          rw [hdrop]
          congr 2)
        (by show st.z + 1 = z + 1; rw [hz])
        (by omega)
      rw [hstep]
      have hdiv : M / cfg.n_shuffles = (M - cfg.n_shuffles) /
          cfg.n_shuffles + 1 := Nat.div_eq_sub_div hnS hcond
      have hmod : M % cfg.n_shuffles = (M - cfg.n_shuffles) %
          cfg.n_shuffles := Nat.mod_eq_sub_mod hcond
      have hidx : z + 1 + (M - cfg.n_shuffles) / cfg.n_shuffles =
          z + M / cfg.n_shuffles := by omega
      rw [hidx, ← hmod, hdiv, List.range'_succ, List.map_cons,
        List.append_assoc, List.singleton_append]
    · -- fewer than `n_shuffles` pending: the loop exits at once
      rw [drainLoop, if_neg (by rw [hlen]; exact hcond)]
      have hdiv : M / cfg.n_shuffles = 0 := Nat.div_eq_of_lt (by omega)
      have hmod : M % cfg.n_shuffles = M := Nat.mod_eq_of_lt (by omega)
      rw [hdiv, hmod, Nat.add_zero, ← hattr, ← hz]
      simp

/-- The references computed for a flushed batch, in terms of `pairRef`. -/
lemma map_pairFn_refs {ι : Type} (cfg : DriverConfig ι) (l : List ℕ) :
    ((l.map (fun i => (i / cfg.n_shuffles, i % cfg.n_shuffles))).map
      (fun p => cfg.refFn (cfg.X p.1) (cfg.random_state + p.2))) =
      l.map (pairRef cfg) := by
  rw [List.map_map]
  rfl

/-- The attributions computed for a flushed batch, in terms of
`pairAttr`. -/
lemma map_pairFn_attrs {ι : Type} (cfg : DriverConfig ι) (l : List ℕ) :
    (((l.map (fun i => (i / cfg.n_shuffles, i % cfg.n_shuffles))).zip
      (l.map (pairRef cfg))).map
      (fun q => cfg.attrPair (cfg.X q.1.1) q.2)) =
      l.map (pairAttr cfg) := by
  rw [List.zip_map', List.map_map]
  rfl

/-- One loop iteration advances the closed-form state. -/
lemma driverStep_stateAt {ι : Type} (cfg : DriverConfig ι)
    (hnS : 1 ≤ cfg.n_shuffles) (hbs : 1 ≤ cfg.batch_size) (k : ℕ)
    (hk : k < cfg.numX * cfg.n_shuffles) :
    driverStep cfg (stateAt cfg k) k = stateAt cfg (k + 1) := by
  have hq := Nat.div_add_mod k cfg.batch_size
  have hr : k % cfg.batch_size < cfg.batch_size := Nat.mod_lt _ hbs
  have hFle : cfg.batch_size * (k / cfg.batch_size) ≤ k := by omega
  have hFk : flushedCount cfg k =
      cfg.batch_size * (k / cfg.batch_size) := by
    unfold flushedCount
    rw [if_pos hk]
  have hcat : ∀ f : ℕ → ℕ,
      (List.range' (cfg.batch_size * (k / cfg.batch_size))
        (k - cfg.batch_size * (k / cfg.batch_size))).map f ++ [f k] =
      (List.range' (cfg.batch_size * (k / cfg.batch_size))
        (k - cfg.batch_size * (k / cfg.batch_size) + 1)).map f := by
    intro f
    have harg : cfg.batch_size * (k / cfg.batch_size) +
        1 * (k - cfg.batch_size * (k / cfg.batch_size)) = k := by omega
    rw [List.range'_concat, harg, List.map_append]
    rfl
  simp only [driverStep, stateAt, hFk]
  rw [hcat, hcat]
  simp only [List.length_map, List.length_range']
  by_cases hcond : k - cfg.batch_size * (k / cfg.batch_size) + 1 =
      cfg.batch_size ∨ k = cfg.numX * cfg.n_shuffles - 1
  · -- a batch is flushed: everything up to pair `k` becomes processed
    rw [if_pos hcond]
    have hF1 : flushedCount cfg (k + 1) = k + 1 := by
      unfold flushedCount
      by_cases hkn : k + 1 < cfg.numX * cfg.n_shuffles
      · rw [if_pos hkn]
        have hleft : k - cfg.batch_size * (k / cfg.batch_size) + 1 =
            cfg.batch_size := by
          rcases hcond with h | h
          · exact h
          · omega
        have hk1 : k + 1 = cfg.batch_size * (k / cfg.batch_size + 1) := by
          rw [Nat.mul_succ]
          omega
        rw [hk1, Nat.mul_div_cancel_left _ hbs]
      · rw [if_neg hkn]
        omega
    rw [hF1]
    set F := cfg.batch_size * (k / cfg.batch_size) with hFdef
    set B := k - F + 1 with hBdef
    set zk := F / cfg.n_shuffles with hzkdef
    have hzle : cfg.n_shuffles * zk ≤ F := by
      rw [hzkdef, Nat.mul_comm]
      exact Nat.div_mul_le_self _ _
    simp only [flushBatch]
    rw [List.zip_map', map_pairFn_refs, map_pairFn_attrs,
      ← List.map_append]
    have h0 := List.range'_append (cfg.n_shuffles * zk)
      (F - cfg.n_shuffles * zk) B 1
    rw [show cfg.n_shuffles * zk + 1 * (F - cfg.n_shuffles * zk) = F by
      omega] at h0
    rw [h0, List.length_map, List.length_range']
    have hdr := drainLoop_spec cfg hnS (B + (F - cfg.n_shuffles * zk) + 1)
      (B + (F - cfg.n_shuffles * zk)) zk
      { Xi := (List.range' F B).map (fun x => x / cfg.n_shuffles)
        rj := (List.range' F B).map (fun x => x % cfg.n_shuffles)
        attr_ := (List.range' (cfg.n_shuffles * zk)
          (B + (F - cfg.n_shuffles * zk))).map (pairAttr cfg)
        attributions := (List.range' 0 zk).map (expectedAttr cfg)
        z := zk
        references_ := (List.range' 0 F).map (pairRef cfg) }
      rfl rfl (Nat.le_succ _)
    rw [hdr]
    have hdivk : (k + 1) / cfg.n_shuffles =
        zk + (B + (F - cfg.n_shuffles * zk)) / cfg.n_shuffles := by
      rw [show k + 1 = cfg.n_shuffles * zk +
        (B + (F - cfg.n_shuffles * zk)) by omega, Nat.mul_add_div hnS]
    rw [hdivk]
    have hmodk : k + 1 - cfg.n_shuffles *
        (zk + (B + (F - cfg.n_shuffles * zk)) / cfg.n_shuffles) =
        (B + (F - cfg.n_shuffles * zk)) % cfg.n_shuffles := by
      have hdm := Nat.div_add_mod (B + (F - cfg.n_shuffles * zk))
        cfg.n_shuffles
      rw [Nat.mul_add]
      omega
    rw [hmodk]
    have hattrs : ((List.range' 0 zk).map (expectedAttr cfg)) ++
        ((List.range' zk ((B + (F - cfg.n_shuffles * zk)) /
          cfg.n_shuffles)).map (expectedAttr cfg)) =
        (List.range' 0 (zk + (B + (F - cfg.n_shuffles * zk)) /
          cfg.n_shuffles)).map (expectedAttr cfg) := by
      rw [← List.map_append]
      congr 1
      have h1 := List.range'_append 0 zk
        ((B + (F - cfg.n_shuffles * zk)) / cfg.n_shuffles) 1
      simp only [Nat.one_mul, Nat.zero_add] at h1
      rw [h1, Nat.add_comm]
    rw [hattrs]
    have hrefs2 : ((List.range' 0 F).map (pairRef cfg)) ++
        ((List.range' F B).map (pairRef cfg)) =
        (List.range' 0 (k + 1)).map (pairRef cfg) := by
      rw [← List.map_append]
      congr 1
      have h1 := List.range'_append 0 F B 1
      simp only [Nat.one_mul, Nat.zero_add] at h1
      rw [h1]
      congr 1
      omega
    rw [hrefs2, Nat.sub_self]
    simp only [List.range', List.map_nil]
  · rw [if_neg hcond]
    have hk1n : k + 1 < cfg.numX * cfg.n_shuffles := by omega
    have hF1 : flushedCount cfg (k + 1) =
        cfg.batch_size * (k / cfg.batch_size) := by
      unfold flushedCount
      rw [if_pos hk1n]
      have hlt : k % cfg.batch_size + 1 < cfg.batch_size := by omega
      have hk1 : k + 1 = cfg.batch_size * (k / cfg.batch_size) +
          (k % cfg.batch_size + 1) := by omega
      rw [hk1, Nat.mul_add_div hbs, Nat.div_eq_of_lt hlt, Nat.add_zero]
    rw [hF1]
    have hcnt : k - cfg.batch_size * (k / cfg.batch_size) + 1 =
        k + 1 - cfg.batch_size * (k / cfg.batch_size) := by omega
    rw [hcnt]

/-- The loop invariant, closed over the whole run. -/
lemma driver_foldl_stateAt {ι : Type} (cfg : DriverConfig ι)
    (hnS : 1 ≤ cfg.n_shuffles) (hbs : 1 ≤ cfg.batch_size) :
    ∀ k, k ≤ cfg.numX * cfg.n_shuffles →
      (List.range k).foldl (driverStep cfg) ⟨[], [], [], [], 0, []⟩ =
        stateAt cfg k := by
  intro k
  induction k with
  | zero =>
    intro _
    have hF : flushedCount cfg 0 = 0 := by
      unfold flushedCount
      by_cases hn : 0 < cfg.numX * cfg.n_shuffles
      · rw [if_pos hn, Nat.zero_div, Nat.mul_zero]
      · rw [if_neg hn]
        omega
    simp [stateAt, hF]
  | succ k ih =>
    intro hk1
    rw [List.range_succ, List.foldl_append, List.foldl_cons, List.foldl_nil,
      ih (by omega), driverStep_stateAt cfg hnS hbs k (by omega)]

/-! ## The driver with a precomputed references tensor (lines 375–437)

When `references` is a `torch.Tensor` the driver sets
`n_shuffles = references.shape[1]` (line 376) and selects
`_references = references[Xi, rj]` (line 395) by advanced indexing, which
raises `IndexError` when an index exceeds the corresponding dimension;
`DeepLiftShap.attribute` then runs
`assert inputs.shape == baselines.shape` (line 182), which fails when the
reference tensor's trailing dimensions differ from `X`'s.  We model the
tensors with explicit shapes and the run in an error monad; the per-pair
attribution math is the abstract `attrPair`, as before. -/

/-- A `torch.Tensor` of shape `(n, a, l)` with explicit dimensions. -/
structure Tensor3S where
  n : ℕ
  a : ℕ
  l : ℕ
  data : ℕ → ℕ → ℕ → ℚ

/-- A `torch.Tensor` of shape `(n, s, a, l)` with explicit dimensions. -/
structure Tensor4S where
  n : ℕ
  s : ℕ
  a : ℕ
  l : ℕ
  data : ℕ → ℕ → ℕ → ℕ → ℚ

/-- `references.shape == (len(X), n_shuffles, *X.shape[1:])`, the shape the
docstring requires of a precomputed references tensor (with
`n_shuffles = references.shape[1]`, as set on line 376). -/
def refsShapeMatches (X : Tensor3S) (refs : Tensor4S) : Prop :=
  (refs.n, refs.s, refs.a, refs.l) = (X.n, refs.s, X.a, X.l)

/-- The `DriverConfig` view of a tensor-references call: `n_shuffles` is
`references.shape[1]`, the example sequences are the rows of `X`, and the
aggregation `while` loop (lines 416–423) is the same code as in the
function-references branch.  `refFn` and `random_state` are unused in this
branch. -/
def tensorCfg (X : Tensor3S) (refs : Tensor4S) (batch_size : ℕ)
    (attrPair : ((ℕ × ℕ) → ℚ) → ((ℕ × ℕ) → ℚ) → ((ℕ × ℕ) → ℚ))
    (hypothetical : Bool) : DriverConfig (ℕ × ℕ) where
  X := fun e q => X.data e q.1 q.2
  numX := X.n
  n_shuffles := refs.s
  batch_size := batch_size
  random_state := 0
  hypothetical := hypothetical
  refFn := fun x _ => x
  attrPair := attrPair

/-- One iteration of the driver loop in the tensor-references branch on an
un-raised state: as `driverStep`, but `_references = references[Xi, rj]`
(an `IndexError` when some index is out of bounds) and the engine's
`assert inputs.shape == baselines.shape` (an `AssertionError` when the
trailing dimensions disagree).  Sequences are `(ℕ × ℕ) → ℚ` on
(alphabet index, position). -/
def tensorDriverStepOk (X : Tensor3S) (refs : Tensor4S) (batch_size : ℕ)
    (attrPair : ((ℕ × ℕ) → ℚ) → ((ℕ × ℕ) → ℚ) → ((ℕ × ℕ) → ℚ))
    (hypothetical : Bool) (st : DriverState (ℕ × ℕ)) (i : ℕ) :
    Except String (DriverState (ℕ × ℕ)) :=
  let cfg := tensorCfg X refs batch_size attrPair hypothetical
  let st' := { st with
    Xi := st.Xi ++ [i / refs.s]
    rj := st.rj ++ [i % refs.s] }
  if st'.Xi.length = batch_size ∨ i = X.n * refs.s - 1 then
    if (st'.Xi.all fun x => decide (x < refs.n)) &&
        (st'.rj.all fun r => decide (r < refs.s)) then
      if X.a = refs.a ∧ X.l = refs.l then
        let pairs := st'.Xi.zip st'.rj
        let references : List ((ℕ × ℕ) → ℚ) := pairs.map fun p q =>
          refs.data p.1 p.2 q.1 q.2
        let attrs := (pairs.zip references).map fun q =>
          attrPair (cfg.X q.1.1) q.2
        let st1 := { st' with attr_ := st'.attr_ ++ attrs }
        let st2 := drainLoop cfg (st1.attr_.length + 1) st1
        Except.ok { st2 with
          references_ := st2.references_ ++ references
          Xi := []
          rj := [] }
      else Except.error "assert inputs.shape == baselines.shape"
    else Except.error "IndexError: index out of bounds"
  else Except.ok st'

/-- One iteration of the tensor-branch loop: an already-raised exception
propagates. -/
def tensorDriverStep (X : Tensor3S) (refs : Tensor4S) (batch_size : ℕ)
    (attrPair : ((ℕ × ℕ) → ℚ) → ((ℕ × ℕ) → ℚ) → ((ℕ × ℕ) → ℚ))
    (hypothetical : Bool)
    (est : Except String (DriverState (ℕ × ℕ))) (i : ℕ) :
    Except String (DriverState (ℕ × ℕ)) :=
  match est with
  | Except.error e => Except.error e
  | Except.ok st => tensorDriverStepOk X refs batch_size attrPair
      hypothetical st i

/-- The tensor-branch run of `deep_lift_shap`: `n_shuffles` is read from
`references.shape[1]` and the loop covers `len(X) * n_shuffles` pairs. -/
def deep_lift_shap_tensorRefs (X : Tensor3S) (refs : Tensor4S)
    (batch_size : ℕ)
    (attrPair : ((ℕ × ℕ) → ℚ) → ((ℕ × ℕ) → ℚ) → ((ℕ × ℕ) → ℚ))
    (hypothetical : Bool) :
    Except String (List ((ℕ × ℕ) → ℚ) × List ((ℕ × ℕ) → ℚ)) :=
  match (List.range (X.n * refs.s)).foldl
    (tensorDriverStep X refs batch_size attrPair hypothetical)
    (Except.ok ⟨[], [], [], [], 0, []⟩) with
  | Except.error e => Except.error e
  | Except.ok st => Except.ok (st.attributions, st.references_)

/-! ### Tensor-branch lemmas -/

/-- Appending the next pair index extends the buffered range. -/
lemma range'_map_concat (F cnt k : ℕ) (f : ℕ → ℕ) (h : F + cnt = k) :
    (List.range' F cnt).map f ++ [f k] =
      (List.range' F (cnt + 1)).map f := by
  have harg : F + 1 * cnt = k := by omega
  rw [List.range'_concat, harg, List.map_append]
  rfl

/-- `flushedCount` after a flushing iteration. -/
lemma flushedCount_succ_of_flush {ι : Type} (cfg : DriverConfig ι)
    (hbs : 1 ≤ cfg.batch_size) (k : ℕ)
    (hk : k < cfg.numX * cfg.n_shuffles)
    (hcond : k - cfg.batch_size * (k / cfg.batch_size) + 1 =
      cfg.batch_size ∨ k = cfg.numX * cfg.n_shuffles - 1) :
    flushedCount cfg (k + 1) = k + 1 := by
  have hq := Nat.div_add_mod k cfg.batch_size
  have hr : k % cfg.batch_size < cfg.batch_size := Nat.mod_lt _ hbs
  unfold flushedCount
  by_cases hkn : k + 1 < cfg.numX * cfg.n_shuffles
  · rw [if_pos hkn]
    have hleft : k - cfg.batch_size * (k / cfg.batch_size) + 1 =
        cfg.batch_size := by
      rcases hcond with h | h
      · exact h
      · omega
    have hk1 : k + 1 = cfg.batch_size * (k / cfg.batch_size + 1) := by
      rw [Nat.mul_succ]
      omega
    rw [hk1, Nat.mul_div_cancel_left _ hbs]
  · rw [if_neg hkn]
    omega

/-- `flushedCount` after a non-flushing iteration. -/
lemma flushedCount_succ_of_no_flush {ι : Type} (cfg : DriverConfig ι)
    (hbs : 1 ≤ cfg.batch_size) (k : ℕ)
    (hk : k < cfg.numX * cfg.n_shuffles)
    (h1 : ¬ k - cfg.batch_size * (k / cfg.batch_size) + 1 =
      cfg.batch_size)
    (h2 : ¬ k = cfg.numX * cfg.n_shuffles - 1) :
    flushedCount cfg (k + 1) =
      cfg.batch_size * (k / cfg.batch_size) := by
  have hq := Nat.div_add_mod k cfg.batch_size
  have hr : k % cfg.batch_size < cfg.batch_size := Nat.mod_lt _ hbs
  unfold flushedCount
  rw [if_pos (by omega)]
  have hlt : k % cfg.batch_size + 1 < cfg.batch_size := by omega
  have hk1 : k + 1 = cfg.batch_size * (k / cfg.batch_size) +
      (k % cfg.batch_size + 1) := by omega
  rw [hk1, Nat.mul_add_div hbs, Nat.div_eq_of_lt hlt, Nat.add_zero]

/-- A raised exception propagates through the rest of the loop. -/
lemma tensor_foldl_error (X : Tensor3S) (refs : Tensor4S) (batch_size : ℕ)
    (attrPair : ((ℕ × ℕ) → ℚ) → ((ℕ × ℕ) → ℚ) → ((ℕ × ℕ) → ℚ))
    (hypothetical : Bool) (e : String) (l : List ℕ) :
    l.foldl (tensorDriverStep X refs batch_size attrPair hypothetical)
      (Except.error e) = Except.error e := by
  induction l with
  | nil => rfl
  | cons x xs ih =>
    rw [List.foldl_cons]
    exact ih

/-- When the references tensor has at least `len(X)` rows and its trailing
dimensions match `X`'s, every iteration succeeds and the buffers follow the
usual closed form. -/
lemma tensor_foldl_ok (X : Tensor3S) (refs : Tensor4S) (batch_size : ℕ)
    (attrPair : ((ℕ × ℕ) → ℚ) → ((ℕ × ℕ) → ℚ) → ((ℕ × ℕ) → ℚ))
    (hypothetical : Bool) (hnS : 1 ≤ refs.s) (hbs : 1 ≤ batch_size)
    (hn : X.n ≤ refs.n) (ha : X.a = refs.a) (hl : X.l = refs.l) :
    ∀ k, k ≤ X.n * refs.s →
      ∃ st : DriverState (ℕ × ℕ),
        (List.range k).foldl
          (tensorDriverStep X refs batch_size attrPair hypothetical)
          (Except.ok ⟨[], [], [], [], 0, []⟩) = Except.ok st ∧
        st.Xi = (List.range'
          (flushedCount (tensorCfg X refs batch_size attrPair hypothetical)
            k)
          (k - flushedCount (tensorCfg X refs batch_size attrPair
            hypothetical) k)).map (· / refs.s) ∧
        st.rj = (List.range'
          (flushedCount (tensorCfg X refs batch_size attrPair hypothetical)
            k)
          (k - flushedCount (tensorCfg X refs batch_size attrPair
            hypothetical) k)).map (· % refs.s) := by
  intro k
  induction k with
  | zero =>
    intro _
    refine ⟨⟨[], [], [], [], 0, []⟩, rfl, ?_, ?_⟩ <;>
    · have hF : flushedCount
          (tensorCfg X refs batch_size attrPair hypothetical) 0 = 0 := by
        unfold flushedCount
        simp only [tensorCfg]
        by_cases h0 : (0 : ℕ) < X.n * refs.s
        · rw [if_pos h0, Nat.zero_div, Nat.mul_zero]
        · rw [if_neg h0]
          omega
      rw [hF]
      simp
  | succ k ih =>
    intro hk1
    obtain ⟨st, hok, hXi, hrj⟩ := ih (by omega)
    have hklt : k < X.n * refs.s := by omega
    have hF : flushedCount
        (tensorCfg X refs batch_size attrPair hypothetical) k =
        batch_size * (k / batch_size) := by
      unfold flushedCount
      exact if_pos hklt
    rw [hF] at hXi hrj
    have hq := Nat.div_add_mod k batch_size
    have hFle : batch_size * (k / batch_size) ≤ k := by omega
    rw [List.range_succ, List.foldl_append, List.foldl_cons,
      List.foldl_nil, hok]
    have hstep : tensorDriverStep X refs batch_size attrPair hypothetical
        (Except.ok st) k =
        tensorDriverStepOk X refs batch_size attrPair hypothetical st k :=
      rfl
    rw [hstep]
    simp only [tensorDriverStepOk]
    rw [hXi, hrj,
      range'_map_concat _ _ k (· / refs.s) (by omega),
      range'_map_concat _ _ k (· % refs.s) (by omega)]
    simp only [List.length_map, List.length_range']
    by_cases hcond : k - batch_size * (k / batch_size) + 1 = batch_size ∨
        k = X.n * refs.s - 1
    · rw [if_pos hcond]
      have hall1 : ((List.range' (batch_size * (k / batch_size))
          (k - batch_size * (k / batch_size) + 1)).map
            (· / refs.s)).all (fun x => decide (x < refs.n)) = true := by
        rw [List.all_eq_true]
        intro x hx
        rw [List.mem_map] at hx
        obtain ⟨i, hi, rfl⟩ := hx
        rw [List.mem_range'_1] at hi
        have hilt : i < X.n * refs.s := by omega
        simp only [decide_eq_true_eq]
        have := (Nat.div_lt_iff_lt_mul hnS).mpr hilt
        omega
      have hall2 : ((List.range' (batch_size * (k / batch_size))
          (k - batch_size * (k / batch_size) + 1)).map
            (· % refs.s)).all (fun r => decide (r < refs.s)) = true := by
        rw [List.all_eq_true]
        intro x hx
        rw [List.mem_map] at hx
        obtain ⟨i, hi, rfl⟩ := hx
        simp only [decide_eq_true_eq]
        exact Nat.mod_lt _ (by omega)
      rw [if_pos (by rw [hall1, hall2]; rfl), if_pos ⟨ha, hl⟩]
      refine ⟨_, rfl, ?_, ?_⟩ <;>
      · show ([] : List ℕ) = _
        rw [flushedCount_succ_of_flush
          (tensorCfg X refs batch_size attrPair hypothetical) hbs k hklt
          hcond, Nat.sub_self]
        simp
    · rw [if_neg hcond]
      rw [not_or] at hcond
      refine ⟨_, rfl, ?_, ?_⟩ <;>
      · show (List.range' _ _).map _ = _
        rw [flushedCount_succ_of_no_flush
          (tensorCfg X refs batch_size attrPair hypothetical) hbs k hklt
          hcond.1 hcond.2]
        simp only [tensorCfg]
        rw [show k + 1 - batch_size * (k / batch_size) =
            k - batch_size * (k / batch_size) + 1 from by omega]

/-- Without assumptions on the reference tensor, each prefix of the loop
either has raised or is in the closed-form buffer state. -/
lemma tensor_foldl_cases (X : Tensor3S) (refs : Tensor4S) (batch_size : ℕ)
    (attrPair : ((ℕ × ℕ) → ℚ) → ((ℕ × ℕ) → ℚ) → ((ℕ × ℕ) → ℚ))
    (hypothetical : Bool) (_hnS : 1 ≤ refs.s) (hbs : 1 ≤ batch_size) :
    ∀ k, k ≤ X.n * refs.s →
      (∃ e, (List.range k).foldl
        (tensorDriverStep X refs batch_size attrPair hypothetical)
        (Except.ok ⟨[], [], [], [], 0, []⟩) = Except.error e) ∨
      (∃ st : DriverState (ℕ × ℕ),
        (List.range k).foldl
          (tensorDriverStep X refs batch_size attrPair hypothetical)
          (Except.ok ⟨[], [], [], [], 0, []⟩) = Except.ok st ∧
        st.Xi = (List.range'
          (flushedCount (tensorCfg X refs batch_size attrPair hypothetical)
            k)
          (k - flushedCount (tensorCfg X refs batch_size attrPair
            hypothetical) k)).map (· / refs.s) ∧
        st.rj = (List.range'
          (flushedCount (tensorCfg X refs batch_size attrPair hypothetical)
            k)
          (k - flushedCount (tensorCfg X refs batch_size attrPair
            hypothetical) k)).map (· % refs.s)) := by
  intro k
  induction k with
  | zero =>
    intro _
    right
    refine ⟨⟨[], [], [], [], 0, []⟩, rfl, ?_, ?_⟩ <;>
    · have hF : flushedCount
          (tensorCfg X refs batch_size attrPair hypothetical) 0 = 0 := by
        unfold flushedCount
        simp only [tensorCfg]
        by_cases h0 : (0 : ℕ) < X.n * refs.s
        · rw [if_pos h0, Nat.zero_div, Nat.mul_zero]
        · rw [if_neg h0]
          omega
      rw [hF]
      simp
  | succ k ih =>
    intro hk1
    rcases ih (by omega) with ⟨e, herr⟩ | ⟨st, hok, hXi, hrj⟩
    · left
      refine ⟨e, ?_⟩
      rw [List.range_succ, List.foldl_append, List.foldl_cons,
        List.foldl_nil, herr]
      rfl
    · have hklt : k < X.n * refs.s := by omega
      have hF : flushedCount
          (tensorCfg X refs batch_size attrPair hypothetical) k =
          batch_size * (k / batch_size) := by
        unfold flushedCount
        exact if_pos hklt
      rw [hF] at hXi hrj
      have hq := Nat.div_add_mod k batch_size
      have hFle : batch_size * (k / batch_size) ≤ k := by omega
      rw [List.range_succ, List.foldl_append, List.foldl_cons,
        List.foldl_nil, hok]
      have hstep : tensorDriverStep X refs batch_size attrPair hypothetical
          (Except.ok st) k =
          tensorDriverStepOk X refs batch_size attrPair hypothetical st k :=
        rfl
      rw [hstep]
      simp only [tensorDriverStepOk]
      rw [hXi, hrj,
        range'_map_concat _ _ k (· / refs.s) (by omega),
        range'_map_concat _ _ k (· % refs.s) (by omega)]
      simp only [List.length_map, List.length_range']
      by_cases hcond : k - batch_size * (k / batch_size) + 1 =
          batch_size ∨ k = X.n * refs.s - 1
      · rw [if_pos hcond]
        by_cases hb : (((List.range' (batch_size * (k / batch_size))
            (k - batch_size * (k / batch_size) + 1)).map
              (· / refs.s)).all (fun x => decide (x < refs.n)) &&
            ((List.range' (batch_size * (k / batch_size))
            (k - batch_size * (k / batch_size) + 1)).map
              (· % refs.s)).all (fun r => decide (r < refs.s))) = true
        · rw [if_pos hb]
          by_cases hsh : X.a = refs.a ∧ X.l = refs.l
          · rw [if_pos hsh]
            right
            refine ⟨_, rfl, ?_, ?_⟩ <;>
            · show ([] : List ℕ) = _
              rw [flushedCount_succ_of_flush
                (tensorCfg X refs batch_size attrPair hypothetical) hbs k
                hklt hcond, Nat.sub_self]
              simp
          · rw [if_neg hsh]
            left
            exact ⟨_, rfl⟩
        · rw [if_neg hb]
          left
          exact ⟨_, rfl⟩
      · rw [if_neg hcond]
        rw [not_or] at hcond
        right
        refine ⟨_, rfl, ?_, ?_⟩ <;>
        · show (List.range' _ _).map _ = _
          rw [flushedCount_succ_of_no_flush
            (tensorCfg X refs batch_size attrPair hypothetical) hbs k hklt
            hcond.1 hcond.2]
          simp only [tensorCfg]
          rw [show k + 1 - batch_size * (k / batch_size) =
              k - batch_size * (k / batch_size) + 1 from by omega]

/-- If the tensor-branch run returns a result, the reference tensor had at
least `len(X)` leading rows and matching trailing dimensions: the last
batch (flushed at `i = n - 1`) indexes row `len(X) - 1` and passes through
the engine's shape assert. -/
lemma tensor_run_ok_implies (X : Tensor3S) (refs : Tensor4S)
    (batch_size : ℕ)
    (attrPair : ((ℕ × ℕ) → ℚ) → ((ℕ × ℕ) → ℚ) → ((ℕ × ℕ) → ℚ))
    (hypothetical : Bool) (hX : 1 ≤ X.n) (hnS : 1 ≤ refs.s)
    (hbs : 1 ≤ batch_size)
    (out : List ((ℕ × ℕ) → ℚ) × List ((ℕ × ℕ) → ℚ))
    (hok : deep_lift_shap_tensorRefs X refs batch_size attrPair
      hypothetical = Except.ok out) :
    X.n ≤ refs.n ∧ X.a = refs.a ∧ X.l = refs.l := by
  unfold deep_lift_shap_tensorRefs at hok
  have hn1 : 1 ≤ X.n * refs.s := Nat.mul_pos hX hnS
  have hdecomp : (List.range (X.n * refs.s)).foldl
      (tensorDriverStep X refs batch_size attrPair hypothetical)
      (Except.ok ⟨[], [], [], [], 0, []⟩) =
      tensorDriverStep X refs batch_size attrPair hypothetical
        ((List.range (X.n * refs.s - 1)).foldl
          (tensorDriverStep X refs batch_size attrPair hypothetical)
          (Except.ok ⟨[], [], [], [], 0, []⟩)) (X.n * refs.s - 1) := by
    conv_lhs => rw [show X.n * refs.s = X.n * refs.s - 1 + 1 from by omega,
      List.range_succ]
    rw [List.foldl_append, List.foldl_cons, List.foldl_nil]
  rcases tensor_foldl_cases X refs batch_size attrPair hypothetical hnS hbs
      (X.n * refs.s - 1) (by omega) with ⟨e, herr⟩ | ⟨st, hokp, hXi, hrj⟩
  · rw [hdecomp, herr] at hok
    simp [tensorDriverStep] at hok
  · have hklt : X.n * refs.s - 1 < X.n * refs.s := by omega
    have hF : flushedCount
        (tensorCfg X refs batch_size attrPair hypothetical)
        (X.n * refs.s - 1) =
        batch_size * ((X.n * refs.s - 1) / batch_size) := by
      unfold flushedCount
      exact if_pos hklt
    rw [hF] at hXi hrj
    have hq := Nat.div_add_mod (X.n * refs.s - 1) batch_size
    have hFle : batch_size * ((X.n * refs.s - 1) / batch_size) ≤
        X.n * refs.s - 1 := by omega
    rw [hdecomp, hokp] at hok
    have hstep : tensorDriverStep X refs batch_size attrPair hypothetical
        (Except.ok st) (X.n * refs.s - 1) =
        tensorDriverStepOk X refs batch_size attrPair hypothetical st
          (X.n * refs.s - 1) := rfl
    rw [hstep] at hok
    simp only [tensorDriverStepOk] at hok
    rw [hXi, hrj,
      range'_map_concat _ _ (X.n * refs.s - 1) (· / refs.s) (by omega),
      range'_map_concat _ _ (X.n * refs.s - 1) (· % refs.s) (by omega),
      if_pos (Or.inr trivial)] at hok
    by_cases hb : (((List.range'
        (batch_size * ((X.n * refs.s - 1) / batch_size))
        (X.n * refs.s - 1 -
          batch_size * ((X.n * refs.s - 1) / batch_size) + 1)).map
          (· / refs.s)).all (fun x => decide (x < refs.n)) &&
        ((List.range' (batch_size * ((X.n * refs.s - 1) / batch_size))
        (X.n * refs.s - 1 -
          batch_size * ((X.n * refs.s - 1) / batch_size) + 1)).map
          (· % refs.s)).all (fun r => decide (r < refs.s))) = true
    · rw [if_pos hb] at hok
      by_cases hsh : X.a = refs.a ∧ X.l = refs.l
      · refine ⟨?_, hsh.1, hsh.2⟩
        have hb1 := (Bool.and_eq_true _ _).mp hb |>.1
        rw [List.all_eq_true] at hb1
        obtain ⟨m, hm⟩ : ∃ m, X.n = m + 1 := ⟨X.n - 1, by omega⟩
        have hprod : (m + 1) * refs.s = refs.s * m + refs.s := by ring
        have hlast : (X.n * refs.s - 1) / refs.s = m := by
          rw [hm, show (m + 1) * refs.s - 1 = refs.s * m + (refs.s - 1)
            from by omega, Nat.mul_add_div hnS,
            Nat.div_eq_of_lt (by omega), Nat.add_zero]
        have hmem : (X.n * refs.s - 1) / refs.s ∈
            (List.range' (batch_size * ((X.n * refs.s - 1) / batch_size))
              (X.n * refs.s - 1 -
                batch_size * ((X.n * refs.s - 1) / batch_size) + 1)).map
              (· / refs.s) := by
          refine List.mem_map.mpr ⟨X.n * refs.s - 1, ?_, rfl⟩
          rw [List.mem_range'_1]
          omega
        have := hb1 _ hmem
        rw [decide_eq_true_eq] at this
        omega
      · rw [if_neg hsh] at hok
        simp at hok
    · rw [if_neg hb] at hok
      simp at hok

/-! ## Spec-side definitions and concrete instances used by the claims -/

/-- Modelled from the spec's words (§4.1): the "hypothetical fully
one-hot-at-`c` input" — `1` at alphabet index `c`, `0` elsewhere. -/
def specOneHotAt {a : ℕ} (c : Fin a) : Fin a → ℚ :=
  fun cp => if cp = c then 1 else 0

/-- `_can_register_hook` in propositional form. -/
lemma can_register_hook_iff {V : Type} (m : Module V) :
    can_register_hook m = true ↔
      m.backwardHooks = [] ∧ m.isIgnoreInstance = true := by
  unfold can_register_hook
  cases hB : m.backwardHooks <;> cases hI : m.isIgnoreInstance <;>
    simp [hB, hI]

/-- The closed form of a full `deep_lift_shap` run. -/
lemma deep_lift_shap_closed_form {ι : Type} (cfg : DriverConfig ι)
    (hnS : 1 ≤ cfg.n_shuffles) (hbs : 1 ≤ cfg.batch_size) :
    deep_lift_shap cfg =
      ((List.range cfg.numX).map (expectedAttr cfg),
        (List.range (cfg.numX * cfg.n_shuffles)).map (pairRef cfg)) := by
  unfold deep_lift_shap
  rw [driver_foldl_stateAt cfg hnS hbs _ le_rfl]
  simp only [stateAt, flushedCount]
  rw [if_neg (lt_irrefl _),
    Nat.mul_div_cancel _ (by omega : 0 < cfg.n_shuffles),
    List.range_eq_range', List.range_eq_range']

/-- A `torch.nn.ReLU()` module with no pre-existing hooks. -/
def reluModule : Module Unit :=
  { isIgnoreInstance := true
    isMaxPool := false
    forwardHooks := []
    forwardPreHooks := []
    backwardHooks := []
    inputAttr := none
    outputAttr := none }

/-- A `torch.nn.Linear(...)` module with no pre-existing hooks. -/
def linearModule : Module Unit :=
  { isIgnoreInstance := false
    isMaxPool := false
    forwardHooks := []
    forwardPreHooks := []
    backwardHooks := []
    inputAttr := none
    outputAttr := none }

/-- A `torch.nn.MaxPool1d(...)` module. -/
def maxPoolModule : Module Unit :=
  { isIgnoreInstance := false
    isMaxPool := true
    forwardHooks := []
    forwardPreHooks := []
    backwardHooks := []
    inputAttr := none
    outputAttr := none }

/-- A single dense layer with two output channels, both with weight `1` on
the single feature and zero bias. -/
def cW2 : Fin 2 → Fin 1 → Fin 1 → ℚ := fun _ _ _ => 1

def cBias2 : Fin 2 → ℚ := fun _ => 0

/-- One example, alphabet size 1, length 1, value `1`. -/
def cInput1 : Tensor3 1 1 1 := fun _ _ _ => 1

/-- Its baseline, value `0`. -/
def cBase1 : Tensor3 1 1 1 := fun _ _ _ => 0

/-- Concrete captured tensors for the backward-hook witness: the chunk
difference of the input is `3 - 1 = 2 ≥ eps = 1`. -/
def bhIn : Fin 2 → Unit → ℚ := fun k _ => if k = 0 then 3 else 1

def bhOut : Fin 2 → Unit → ℚ := fun k _ => if k = 0 then 5 else 1

def bhGin : Fin 2 → Unit → ℚ := fun _ _ => 7

def bhGout : Fin 2 → Unit → ℚ := fun _ _ => 11

/-- A concrete driver configuration for the batching witness. -/
def wcfg : DriverConfig Unit where
  X := fun z _ => z
  numX := 2
  n_shuffles := 2
  batch_size := 3
  random_state := 5
  hypothetical := false
  refFn := fun x s _ => x () + s
  attrPair := fun x r _ => x () - r ()

/-- `X` with one example of shape `(4, 2)`. -/
def cX : Tensor3S := ⟨1, 4, 2, fun _ _ _ => 0⟩

/-- A references tensor of shape `(2, 3, 4, 2)`: one leading row more than
`len(X) = 1`, trailing dimensions matching. -/
def cRefs : Tensor4S := ⟨2, 3, 4, 2, fun _ _ _ _ => 0⟩

/-- A trivial per-pair attribution function for the tensor-branch
evaluations. -/
def cAttrPair : ((ℕ × ℕ) → ℚ) → ((ℕ × ℕ) → ℚ) → ((ℕ × ℕ) → ℚ) :=
  fun _ _ _ => 0

/-- A references tensor of shape `(0, 3, 4, 2)`: fewer rows than
`len(X) = 1`. -/
def cRefsShort : Tensor4S := ⟨0, 3, 4, 2, fun _ _ _ _ => 0⟩

/-! ## Claim theorems -/

/-- **C2 (counterexample)**: the claim says a layer is hooked only if it is
NOT an instance of the configured ignore types.  In the code it is the
opposite: a `ReLU` (an instance of the default `ignore_layers`) with no
pre-existing backward hook IS eligible and receives the three hooks, while
a `Linear` layer (not an instance) receives none. -/
theorem hook_eligibility_counterexample :
    can_register_hook reluModule = true ∧
    reluModule.isIgnoreInstance = true ∧
    reluModule.backwardHooks = [] ∧
    (registerModule 0 reluModule).forwardHooks ≠ reluModule.forwardHooks ∧
    can_register_hook linearModule = false ∧
    linearModule.isIgnoreInstance = false ∧
    linearModule.backwardHooks = [] ∧
    registerModule 0 linearModule = linearModule := by
  refine ⟨rfl, rfl, rfl, ?_, rfl, rfl, rfl, rfl⟩
  decide

/-- **C2 (amended)**: during the registration phase of an `attribute` call,
module `mi` receives the forward, forward-pre and backward rescale-rule
hooks iff (a) it has no pre-existing backward hook and (b) it IS an
instance of one of the configured ignore-layer types (default:
`torch.nn.ReLU`); layers outside that set keep their native gradients. -/
theorem hook_eligibility_amended {V : Type} (model : Model V)
    (fresh n mi : ℕ) (hmi : mi < n) :
    (((registerPhase model fresh n) mi).forwardHooks =
        (model mi).forwardHooks ++ [fresh + 3 * mi] ∧
      ((registerPhase model fresh n) mi).forwardPreHooks =
        (model mi).forwardPreHooks ++ [fresh + 3 * mi + 1] ∧
      ((registerPhase model fresh n) mi).backwardHooks =
        (model mi).backwardHooks ++ [fresh + 3 * mi + 2]) ↔
    ((model mi).backwardHooks = [] ∧
      (model mi).isIgnoreInstance = true) := by
  unfold registerPhase
  rw [if_pos hmi]
  unfold registerModule
  by_cases hreg : can_register_hook (model mi) = true
  · rw [if_pos hreg]
    constructor
    · intro _
      exact (can_register_hook_iff _).mp hreg
    · intro _
      exact ⟨rfl, rfl, rfl⟩
  · rw [if_neg hreg]
    constructor
    · intro h
      have := congrArg List.length h.1
      simp at this
    · intro h
      exact absurd ((can_register_hook_iff _).mpr h) hreg

/-- **C2 (amended) witness**: a fresh `ReLU` at index 0 of a one-module
model. -/
theorem hook_eligibility_amended_witness :
    (((registerPhase (fun _ => reluModule) 0 1) 0).forwardHooks =
        reluModule.forwardHooks ++ [0 + 3 * 0] ∧
      ((registerPhase (fun _ => reluModule) 0 1) 0).forwardPreHooks =
        reluModule.forwardPreHooks ++ [0 + 3 * 0 + 1] ∧
      ((registerPhase (fun _ => reluModule) 0 1) 0).backwardHooks =
        reluModule.backwardHooks ++ [0 + 3 * 0 + 2]) ↔
    (reluModule.backwardHooks = [] ∧
      reluModule.isIgnoreInstance = true) :=
  hook_eligibility_amended (fun _ => reluModule) 0 1 0 (by decide)

/-- **C3**: on every exit path of `attribute` — normal return, convergence
warning, or an exception raised during the forward/backward computation —
all three hook tables of every module are restored to their pre-call
contents before the call returns or the exception propagates: zero residual
registrations. -/
theorem attribute_hook_cleanup {V G : Type} (model : Model V) (n : ℕ)
    (trace : ℕ → V × V) (exit : ExitPath) (gradients : G) (mi : ℕ) :
    ((attribute_hookLifecycle model n trace exit
        gradients).model mi).forwardHooks = (model mi).forwardHooks ∧
    ((attribute_hookLifecycle model n trace exit
        gradients).model mi).forwardPreHooks =
      (model mi).forwardPreHooks ∧
    ((attribute_hookLifecycle model n trace exit
        gradients).model mi).backwardHooks = (model mi).backwardHooks := by
  rw [attribute_final_module]
  by_cases h : mi < n ∧ can_register_hook (model mi) = true
  · rw [if_pos h]
    exact ⟨rfl, rfl, rfl⟩
  · rw [if_neg h]
    exact ⟨rfl, rfl, rfl⟩

/-- **C4**: in the backward hook, wherever `|Δin| ≥ eps` the rewritten
gradient is the incoming gradient `grad_output` times `Δout / Δin`, and
wherever `|Δin| < eps` it falls back to the original unscaled
`grad_input`. -/
theorem backward_hook_rescale {ι : Type} (eps : ℚ) (_heps : 0 < eps)
    (input output grad_input grad_output : Fin 2 → ι → ℚ) (k : Fin 2)
    (i : ι) :
    (eps ≤ |chunkSub input i| →
      backward_hook eps input output grad_input grad_output k i =
        grad_output k i * (chunkSub output i / chunkSub input i)) ∧
    (|chunkSub input i| < eps →
      backward_hook eps input output grad_input grad_output k i =
        grad_input k i) := by
  constructor
  · intro h
    simp only [backward_hook]
    rw [if_neg (not_lt.mpr h)]
  · intro h
    simp only [backward_hook]
    rw [if_pos h]

/-- **C4 witness**: `eps = 1`, `Δin = 2`, `Δout = 4`: the scaled branch
multiplies the incoming gradient by `4 / 2`. -/
theorem backward_hook_rescale_witness :
    backward_hook 1 bhIn bhOut bhGin bhGout 0 () =
      bhGout 0 () * (chunkSub bhOut () / chunkSub bhIn ()) :=
  (backward_hook_rescale 1 (by norm_num) bhIn bhOut bhGin bhGout 0 ()).1
    (by norm_num [chunkSub, bhIn])

/-- **C6**: `DeepLiftShap.__init__` raises the fatal unsupported-layer
`ValueError` iff some module of the model is a max-pooling
(`_MaxPoolNd`) instance; with no max-pooling layer it returns the engine.
The constructor never invokes the model's forward function. -/
theorem init_maxpool_error {V : Type} (model : Model V) (n : ℕ) :
    ((∃ e, DeepLiftShap_init model n = Except.error e) ↔
      ∃ mi, mi < n ∧ (model mi).isMaxPool = true) ∧
    (¬ (∃ mi, mi < n ∧ (model mi).isMaxPool = true) →
      DeepLiftShap_init model n = Except.ok (model, n)) := by
  unfold DeepLiftShap_init
  by_cases h : (List.range n).any (fun mi => (model mi).isMaxPool) = true
  · rw [if_pos h]
    obtain ⟨mi, hmem, hmp⟩ := List.any_eq_true.mp h
    have hex : ∃ mi, mi < n ∧ (model mi).isMaxPool = true :=
      ⟨mi, List.mem_range.mp hmem, hmp⟩
    exact ⟨⟨fun _ => hex, fun _ => ⟨_, rfl⟩⟩, fun hne => absurd hex hne⟩
  · rw [if_neg h]
    refine ⟨⟨?_, ?_⟩, fun _ => rfl⟩
    · rintro ⟨e, he⟩
      cases he
    · rintro ⟨mi, hlt, hmp⟩
      exact absurd (List.any_eq_true.mpr
        ⟨mi, List.mem_range.mpr hlt, hmp⟩) h

/-- **C7**: the convergence warning fires iff some example's delta strictly
exceeds `warning_threshold`; the computed gradients are returned in every
case (a high delta is never fatal); and the deltas are printed exactly when
`verbose` is set, threshold regardless. -/
theorem convergence_warning_semantics {B A L O : ℕ} (θ : ℚ)
    (verbose : Bool) (outTop outBot : Fin B → Fin (O + 1) → ℚ)
    (inputs baselines gradients : Tensor3 B A L) :
    ((attribute_validation θ verbose outTop outBot inputs baselines
        gradients).warned = true ↔
      ∃ e, θ < convergenceDeltas outTop outBot inputs baselines
        gradients e) ∧
    (attribute_validation θ verbose outTop outBot inputs baselines
      gradients).gradients = gradients ∧
    (verbose = true →
      (attribute_validation θ verbose outTop outBot inputs baselines
        gradients).printedDeltas =
        some (convergenceDeltas outTop outBot inputs baselines
          gradients)) ∧
    (verbose = false →
      (attribute_validation θ verbose outTop outBot inputs baselines
        gradients).printedDeltas = none) := by
  refine ⟨?_, rfl, ?_, ?_⟩
  · show (List.finRange B).any _ = true ↔ _
    rw [List.any_eq_true]
    constructor
    · rintro ⟨e, _, he⟩
      exact ⟨e, of_decide_eq_true he⟩
    · rintro ⟨e, he⟩
      exact ⟨e, List.mem_finRange e, decide_eq_true he⟩
  · intro hv
    show (if verbose then _ else _) = _
    rw [if_pos hv]
  · intro hv
    show (if verbose then _ else _) = _
    rw [hv]
    rfl

/-- **C7 witness**: one example with delta `1` against threshold `1/2`,
`verbose` on. -/
theorem convergence_warning_semantics_witness :
    ((attribute_validation (1/2) true
        (fun e => linearForward cW2 cBias2 (cInput1 e))
        (fun e => linearForward cW2 cBias2 (cBase1 e))
        cInput1 cBase1 (linearGradients 1 cW2)).warned = true ↔
      ∃ e, (1/2 : ℚ) < convergenceDeltas
        (fun e => linearForward cW2 cBias2 (cInput1 e))
        (fun e => linearForward cW2 cBias2 (cBase1 e))
        cInput1 cBase1 (linearGradients 1 cW2) e) ∧
    (attribute_validation (1/2) true
      (fun e => linearForward cW2 cBias2 (cInput1 e))
      (fun e => linearForward cW2 cBias2 (cBase1 e))
      cInput1 cBase1 (linearGradients 1 cW2)).gradients =
      linearGradients 1 cW2 ∧
    (true = true →
      (attribute_validation (1/2) true
        (fun e => linearForward cW2 cBias2 (cInput1 e))
        (fun e => linearForward cW2 cBias2 (cBase1 e))
        cInput1 cBase1 (linearGradients 1 cW2)).printedDeltas =
        some (convergenceDeltas
          (fun e => linearForward cW2 cBias2 (cInput1 e))
          (fun e => linearForward cW2 cBias2 (cBase1 e))
          cInput1 cBase1 (linearGradients 1 cW2))) ∧
    (true = false →
      (attribute_validation (1/2) true
        (fun e => linearForward cW2 cBias2 (cInput1 e))
        (fun e => linearForward cW2 cBias2 (cBase1 e))
        cInput1 cBase1 (linearGradients 1 cW2)).printedDeltas = none) :=
  convergence_warning_semantics (1/2) true _ _ cInput1 cBase1
    (linearGradients 1 cW2)

/-- **C8**: the projector returns a tensor of the same shape (enforced by
its type, `Tensor3 n a l` in and out), and its slice at alphabet index `c`
is, at every (example, position), the sum over the alphabet axis of
(hypothetical one-hot-at-`c` input minus the reference) times the
multiplier. -/
theorem hypothetical_attributions_spec {n a l : ℕ}
    (multipliers X references : Tensor3 n a l) (b : Fin n) (c : Fin a)
    (p : Fin l) :
    hypothetical_attributions multipliers X references b c p =
      ∑ cp, (specOneHotAt c cp - references b cp p) *
        multipliers b cp p := by
  unfold hypothetical_attributions
  rw [foldl_writeSlice_mem multipliers references _ (List.finRange a) c
    (List.mem_finRange c) (List.nodup_finRange a)]
  unfold hypSlice hypotheticalInput specOneHotAt
  rfl

/-- **C10**: after any `attribute` call — every exit path included — a
module that was hooked still carries the captured forward tensors as the
`module.input` / `module.output` attributes: the `finally:` block removes
only the hook registrations and leaves every other field of the module as
the forward pass left it. -/
theorem attribute_captured_tensors_persist {V G : Type} (model : Model V)
    (n : ℕ) (trace : ℕ → V × V) (exit : ExitPath) (gradients : G)
    (mi : ℕ) (h1 : mi < n)
    (h2 : can_register_hook (model mi) = true) :
    ((attribute_hookLifecycle model n trace exit
        gradients).model mi).inputAttr = some (trace mi).1 ∧
    ((attribute_hookLifecycle model n trace exit
        gradients).model mi).outputAttr = some (trace mi).2 ∧
    (attribute_hookLifecycle model n trace exit gradients).model mi =
      { model mi with
        inputAttr := some (trace mi).1
        outputAttr := some (trace mi).2 } := by
  rw [attribute_final_module, if_pos ⟨h1, h2⟩]
  exact ⟨rfl, rfl, rfl⟩

/-- **C10 witness**: a one-`ReLU` model on the exception exit path. -/
theorem attribute_captured_tensors_persist_witness :
    ((attribute_hookLifecycle (fun _ => reluModule) 1
        (fun _ => ((), ())) ExitPath.raised ()).model 0).inputAttr =
      some ((fun _ : ℕ => ((), ())) 0).1 ∧
    ((attribute_hookLifecycle (fun _ => reluModule) 1
        (fun _ => ((), ())) ExitPath.raised ()).model 0).outputAttr =
      some ((fun _ : ℕ => ((), ())) 0).2 ∧
    (attribute_hookLifecycle (fun _ => reluModule) 1
      (fun _ => ((), ())) ExitPath.raised ()).model 0 =
      { (fun _ : ℕ => reluModule) 0 with
        inputAttr := some ((fun _ : ℕ => ((), ())) 0).1
        outputAttr := some ((fun _ : ℕ => ((), ())) 0).2 } :=
  attribute_captured_tensors_persist (fun _ => reluModule) 1
    (fun _ => ((), ())) ExitPath.raised () 0 (by decide) (by decide)

/-- **C1 (counterexample)**: a model consisting of a single dense linear
layer with TWO output channels.  `outputs_ = chunk(outputs, 2)[0].sum()`
(line 198) sums both channels, so the gradient is `∑ o, W[o]`, while the
convergence check (line 203) differences channel 0 only: on input `1`
against baseline `0` the attribution sum is `2` but the channel-0 output
difference is `1` — the conservation identity fails exactly by `1`, and
the code's own convergence warning fires at the default threshold
`0.001`. -/
theorem conservation_counterexample :
    inputDiffSum cInput1 cBase1 (linearGradients 1 cW2) 0 ≠
      outputDiffCh0 (fun e => linearForward cW2 cBias2 (cInput1 e))
        (fun e => linearForward cW2 cBias2 (cBase1 e)) 0 ∧
    convergenceDeltas (fun e => linearForward cW2 cBias2 (cInput1 e))
      (fun e => linearForward cW2 cBias2 (cBase1 e)) cInput1 cBase1
      (linearGradients 1 cW2) 0 = 1 ∧
    (attribute_validation (1/1000) false
      (fun e => linearForward cW2 cBias2 (cInput1 e))
      (fun e => linearForward cW2 cBias2 (cBase1 e))
      cInput1 cBase1 (linearGradients 1 cW2)).warned = true := by
  have h1 : inputDiffSum cInput1 cBase1 (linearGradients 1 cW2) 0 = 2 := by
    simp [inputDiffSum, cInput1, cBase1, linearGradients, cW2,
      Fin.sum_univ_one, Fin.sum_univ_two]
  have h2 : outputDiffCh0 (fun e => linearForward cW2 cBias2 (cInput1 e))
      (fun e => linearForward cW2 cBias2 (cBase1 e)) 0 = 1 := by
    simp [outputDiffCh0, linearForward, cW2, cBias2, cInput1, cBase1,
      Fin.sum_univ_one]
  have hdelta : convergenceDeltas
      (fun e => linearForward cW2 cBias2 (cInput1 e))
      (fun e => linearForward cW2 cBias2 (cBase1 e)) cInput1 cBase1
      (linearGradients 1 cW2) 0 = 1 := by
    unfold convergenceDeltas
    rw [h1, h2, show (1 : ℚ) - 2 = -1 by norm_num, abs_neg, abs_one]
  refine ⟨by rw [h1, h2]; norm_num, hdelta, ?_⟩
  have hw : (attribute_validation (1/1000) false
      (fun e => linearForward cW2 cBias2 (cInput1 e))
      (fun e => linearForward cW2 cBias2 (cBase1 e))
      cInput1 cBase1 (linearGradients 1 cW2)).warned =
      (List.finRange 1).any (fun e => decide ((1 : ℚ)/1000 <
        convergenceDeltas (fun e => linearForward cW2 cBias2 (cInput1 e))
          (fun e => linearForward cW2 cBias2 (cBase1 e)) cInput1 cBase1
          (linearGradients 1 cW2) e)) := rfl
  rw [hw, List.any_eq_true]
  exact ⟨0, List.mem_finRange 0, decide_eq_true (by rw [hdelta]; norm_num)⟩

/-- **C1 (amended)**: (general part, unchanged) the discrepancy between the
attribution sum and the channel-0 output difference is exactly the
computed convergence delta, and when no warning is emitted every example's
discrepancy is within `warning_threshold`; (linear part, amended) for a
single linear layer whose output has a **single** channel — so that
`chunk(outputs, 2)[0].sum()` is the channel-0 sum — the attribution sum
equals the output difference exactly and the convergence delta is `0`. -/
theorem conservation_amended :
    (∀ (B A L O : ℕ) (θ : ℚ) (verbose : Bool)
        (outTop outBot : Fin B → Fin (O + 1) → ℚ)
        (inputs baselines gradients : Tensor3 B A L),
      (∀ e, convergenceDeltas outTop outBot inputs baselines gradients e =
        |outputDiffCh0 outTop outBot e -
          inputDiffSum inputs baselines gradients e|) ∧
      ((attribute_validation θ verbose outTop outBot inputs baselines
          gradients).warned = false →
        ∀ e, |outputDiffCh0 outTop outBot e -
          inputDiffSum inputs baselines gradients e| ≤ θ)) ∧
    (∀ (B A L : ℕ) (W : Fin 1 → Fin A → Fin L → ℚ) (bias : Fin 1 → ℚ)
        (inputs baselines : Tensor3 B A L) (e : Fin B),
      inputDiffSum inputs baselines (linearGradients B W) e =
        outputDiffCh0 (fun i => linearForward W bias (inputs i))
          (fun i => linearForward W bias (baselines i)) e ∧
      convergenceDeltas (fun i => linearForward W bias (inputs i))
        (fun i => linearForward W bias (baselines i)) inputs baselines
        (linearGradients B W) e = 0) := by
  constructor
  · intro B A L O θ verbose outTop outBot inputs baselines gradients
    refine ⟨fun e => rfl, ?_⟩
    intro hw e
    by_contra hgt
    rw [not_le] at hgt
    have hww : (attribute_validation θ verbose outTop outBot inputs
        baselines gradients).warned = true := by
      show (List.finRange B).any _ = true
      rw [List.any_eq_true]
      exact ⟨e, List.mem_finRange e, decide_eq_true hgt⟩
    rw [hw] at hww
    cases hww
  · intro B A L W bias inputs baselines e
    have hfun : (fun c p => baselines e c p +
        (inputs e c p - baselines e c p)) = inputs e := by
      funext c p
      ring
    have hd := linearForward_sum_diff W bias (baselines e)
      (fun c p => inputs e c p - baselines e c p)
    rw [hfun, Fin.sum_univ_one, Fin.sum_univ_one] at hd
    have h1 : inputDiffSum inputs baselines (linearGradients B W) e =
        outputDiffCh0 (fun i => linearForward W bias (inputs i))
          (fun i => linearForward W bias (baselines i)) e := by
      unfold inputDiffSum outputDiffCh0 linearGradients
      simp only []
      rw [hd]
      exact Finset.sum_congr rfl (fun c _ =>
        Finset.sum_congr rfl (fun p _ => mul_comm _ _))
    refine ⟨h1, ?_⟩
    unfold convergenceDeltas
    rw [h1, sub_self, abs_zero]

/-- **C5**: with a function reference generator and an integer
`random_state`, the reference for flattened pair `i` — example
`i / n_shuffles`, reference index `i % n_shuffles` — is generated with
seed `random_state + i % n_shuffles`, however the pairs are grouped into
batches; the whole run equals a closed form in which `batch_size` does not
occur, so the attribution of every example is identical for every choice
of `batch_size`, and two runs with the same arguments (in particular the
same `random_state`) are identical. -/
theorem deep_lift_shap_seed_and_batch_invariance {ι : Type}
    (cfg : DriverConfig ι) (hnS : 1 ≤ cfg.n_shuffles)
    (hbs : 1 ≤ cfg.batch_size) :
    deep_lift_shap cfg =
      ((List.range cfg.numX).map (expectedAttr cfg),
        (List.range (cfg.numX * cfg.n_shuffles)).map (pairRef cfg)) ∧
    ∀ bs, 1 ≤ bs →
      deep_lift_shap { cfg with batch_size := bs } =
        deep_lift_shap cfg := by
  refine ⟨deep_lift_shap_closed_form cfg hnS hbs, ?_⟩
  intro bs hbs'
  rw [deep_lift_shap_closed_form cfg hnS hbs,
    deep_lift_shap_closed_form { cfg with batch_size := bs } hnS hbs']
  rfl

/-- **C5 witness**: a concrete two-example, two-shuffle configuration with
`batch_size = 3` (so batches straddle example boundaries). -/
theorem deep_lift_shap_seed_and_batch_invariance_witness :
    deep_lift_shap wcfg =
      ((List.range wcfg.numX).map (expectedAttr wcfg),
        (List.range (wcfg.numX * wcfg.n_shuffles)).map (pairRef wcfg)) ∧
    ∀ bs, 1 ≤ bs →
      deep_lift_shap { wcfg with batch_size := bs } =
        deep_lift_shap wcfg :=
  deep_lift_shap_seed_and_batch_invariance wcfg (by decide) (by decide)

/-- **C9 (counterexample)**: a precomputed references tensor of shape
`(2, 3, 4, 2)` against `X` of shape `(1, 4, 2)` — the shape does NOT
match `(len(X), n_shuffles, *X.shape[1:]) = (1, 3, 4, 2)` — yet the call
returns a result: the extra leading row is silently ignored. -/
theorem tensor_refs_shape_counterexample :
    ¬ refsShapeMatches cX cRefs ∧
    (deep_lift_shap_tensorRefs cX cRefs 1 cAttrPair false).isOk = true := by
  constructor
  · intro h
    have := congrArg (fun q : ℕ × ℕ × ℕ × ℕ => q.1) h
    simp [cX, cRefs] at this
  · rfl

/-- **C9 (amended)**: with at least one example and a nonempty second
dimension, the tensor-references call returns a result iff the references
tensor has at least `len(X)` leading rows and its trailing dimensions
equal `X.shape[1:]`; it fails (IndexError from `references[Xi, rj]`, or
the engine's shape assert) iff `references.shape[0] < len(X)` or the
trailing dimensions mismatch.  `n_shuffles` is read from
`references.shape[1]`, so that dimension can never mismatch, and extra
leading rows are silently ignored. -/
theorem tensor_refs_shape_check (X : Tensor3S) (refs : Tensor4S)
    (batch_size : ℕ)
    (attrPair : ((ℕ × ℕ) → ℚ) → ((ℕ × ℕ) → ℚ) → ((ℕ × ℕ) → ℚ))
    (hypothetical : Bool) (hX : 1 ≤ X.n) (hs : 1 ≤ refs.s)
    (hbs : 1 ≤ batch_size) :
    (∃ out, deep_lift_shap_tensorRefs X refs batch_size attrPair
      hypothetical = Except.ok out) ↔
    (X.n ≤ refs.n ∧ X.a = refs.a ∧ X.l = refs.l) := by
  constructor
  · rintro ⟨out, hok⟩
    exact tensor_run_ok_implies X refs batch_size attrPair hypothetical
      hX hs hbs out hok
  · rintro ⟨hn, ha, hl⟩
    obtain ⟨st, hok, -, -⟩ := tensor_foldl_ok X refs batch_size attrPair
      hypothetical hs hbs hn ha hl (X.n * refs.s) le_rfl
    refine ⟨(st.attributions, st.references_), ?_⟩
    unfold deep_lift_shap_tensorRefs
    rw [hok]

/-- **C9 (amended) witness**: the shape-respecting run `(2, 3, 4, 2)` vs
`X : (1, 4, 2)` succeeds, and the too-short tensor `(0, 3, 4, 2)`
fails. -/
theorem tensor_refs_shape_check_witness :
    ((∃ out, deep_lift_shap_tensorRefs cX cRefs 1 cAttrPair false =
        Except.ok out) ↔
      (cX.n ≤ cRefs.n ∧ cX.a = cRefs.a ∧ cX.l = cRefs.l)) ∧
    ((∃ out, deep_lift_shap_tensorRefs cX cRefsShort 1 cAttrPair false =
        Except.ok out) ↔
      (cX.n ≤ cRefsShort.n ∧ cX.a = cRefsShort.a ∧
        cX.l = cRefsShort.l)) :=
  ⟨tensor_refs_shape_check cX cRefs 1 cAttrPair false (by decide)
      (by decide) (by decide),
    tensor_refs_shape_check cX cRefsShort 1 cAttrPair false (by decide)
      (by decide) (by decide)⟩

end Tangermeme
